import Mathlib

/-!
Verification of the geometry-and-scoring pipeline of the ghost-tracks
backend: the street mapper (scale / densify / deduplicate), the curve
resampler, the blended shape validator, and the deviation-targeted
tightening step.

The numeric functions are embedded generically over a linear ordered field
and over the geodesy kernel (distance and bearing functions); the concrete
kernel (haversine distance and initial bearing over the reals) is defined
below and instantiated in the claim theorems.  External library routines
that are not part of the repository (PIL line drawing, numpy percentile,
Python round / int, the seeded random sampler) are modelled explicitly,
each marked in its doc comment.
-/

namespace GhostTracks

/-- A geographic coordinate, mirroring models.schemas.Coordinate. -/
structure Coordinate (α : Type) where
  lng : α
  lat : α
deriving DecidableEq, Repr

/-- A bounding box, mirroring models.schemas.BoundingBox. -/
structure BoundingBox (α : Type) where
  min_lng : α
  min_lat : α
  max_lng : α
  max_lat : α
deriving DecidableEq, Repr

variable {α : Type} [LinearOrderedField α] [FloorRing α]

/-- BoundingBox.width_deg. -/
def BoundingBox.width_deg (b : BoundingBox α) : α := b.max_lng - b.min_lng

/-- BoundingBox.height_deg. -/
def BoundingBox.height_deg (b : BoundingBox α) : α := b.max_lat - b.min_lat

/-- Modelled from the spec: Python round with no digits argument, which
rounds half to even and returns an integer. -/
def pyRound (x : α) : ℤ :=
  if x - ⌊x⌋ < 1/2 then ⌊x⌋
  else if 1/2 < x - ⌊x⌋ then ⌊x⌋ + 1
  else if Even ⌊x⌋ then ⌊x⌋ else ⌊x⌋ + 1

/-- Modelled from the spec: Python int() conversion, truncation toward 0,
used when projecting coordinates to pixels. -/
def pyTrunc (x : α) : ℤ := if x < 0 then -⌊-x⌋ else ⌊x⌋

/-- Python min over a list, 0 on the empty list (the source only applies
min to non-empty lists). -/
def listMin : List α → α
  | [] => 0
  | x :: xs => xs.foldl min x

/-- Python max over a list, 0 on the empty list. -/
def listMax : List α → α
  | [] => 0
  | x :: xs => xs.foldl max x

/-- Modelled from the spec: np.percentile with its default linear
interpolation between order statistics (the spec asks for the 90th
percentile of the pooled distances). -/
def percentile (xs : List α) (q : α) : α :=
  let s := xs.insertionSort (· ≤ ·)
  let pos := q / 100 * ((xs.length : α) - 1)
  let i := (⌊pos⌋).toNat
  let g := pos - ⌊pos⌋
  s.getD i 0 + g * (s.getD (i + 1) 0 - s.getD i 0)

/-- The origin, used as the (never relevant) default for list indexing. -/
def origin : Coordinate α := ⟨0, 0⟩

/-- Linear interpolation between coordinates, the `a + (b - a) * frac`
pattern used by densify and the curve resampler. -/
def lerp (a b : Coordinate α) (f : α) : Coordinate α :=
  ⟨a.lng + (b.lng - a.lng) * f, a.lat + (b.lat - a.lat) * f⟩

section Mapper

variable (d : Coordinate α → Coordinate α → α)
variable (brg : Coordinate α → Coordinate α → α)

/-- StreetMapper.scale_to_bbox: scale and center control points into a
target bounding box, preserving aspect ratio. -/
def scale_to_bbox (points : List (Coordinate α)) (bbox : BoundingBox α)
    (padding_pct : α) : List (Coordinate α) :=
  match points with
  | [] => []
  | _ :: _ =>
    let lngs := points.map (·.lng)
    let lats := points.map (·.lat)
    let s_min_lng := listMin lngs
    let s_max_lng := listMax lngs
    let s_min_lat := listMin lats
    let s_max_lat := listMax lats
    let s_width := if s_max_lng - s_min_lng = 0 then 1/1000000 else s_max_lng - s_min_lng
    let s_height := if s_max_lat - s_min_lat = 0 then 1/1000000 else s_max_lat - s_min_lat
    let s_cx := (s_min_lng + s_max_lng) / 2
    let s_cy := (s_min_lat + s_max_lat) / 2
    let pad_lng := bbox.width_deg * padding_pct
    let pad_lat := bbox.height_deg * padding_pct
    let t_width := bbox.width_deg - 2 * pad_lng
    let t_height := bbox.height_deg - 2 * pad_lat
    let t_cx := (bbox.min_lng + bbox.max_lng) / 2
    let t_cy := (bbox.min_lat + bbox.max_lat) / 2
    let scale := min (t_width / s_width) (t_height / s_height)
    points.map fun p =>
      ⟨t_cx + (p.lng - s_cx) * scale, t_cy + (p.lat - s_cy) * scale⟩

/-- The evenly spaced interpolation points inserted by densify into one
over-long segment: fractions j / n for j = 1 .. n - 1 with
n = ceil(dist / max_segment_m). -/
def interpPoints (a b : Coordinate α) (maxSeg : α) : List (Coordinate α) :=
  let n := (⌈d a b / maxSeg⌉).toNat
  (List.range' 1 (n - 1)).map fun j : ℕ => lerp a b ((j : α) / (n : α))

/-- The densify loop over consecutive segments; a is the previous point. -/
def densifyGo (maxSeg : α) : Coordinate α → List (Coordinate α) → List (Coordinate α)
  | _, [] => []
  | a, b :: rest =>
    (if maxSeg < d a b then interpPoints d a b maxSeg else []) ++
      b :: densifyGo maxSeg b rest

/-- StreetMapper.densify: interpolate points that are too far apart. -/
def densify (pts : List (Coordinate α)) (maxSeg : α) : List (Coordinate α) :=
  match pts with
  | [] => []
  | [p] => [p]
  | p :: rest => p :: densifyGo d maxSeg p rest

/-- The bearing-change quantity of deduplicate: absolute difference of the
two bearings, folded into [0, 180]. -/
def angleChangeOf (b_in b_out : α) : α :=
  let x := |b_out - b_in|
  if 180 < x then 360 - x else x

/-- The deduplicate loop: last is the most recently retained point; the
one-element case is the final input point, for which the curvature test
does not apply (i = len - 1 in the source). -/
def dedupGo (minD : α) : Coordinate α → List (Coordinate α) → List (Coordinate α)
  | last, [] => (fun _ => []) last
  | last, [p] => if minD ≤ d last p then [p] else []
  | last, p :: q :: rest =>
    if minD ≤ d last p then p :: dedupGo minD p (q :: rest)
    else if 20 < angleChangeOf (brg last p) (brg p q) then
      p :: dedupGo minD p (q :: rest)
    else dedupGo minD last (q :: rest)

/-- StreetMapper.deduplicate: drop points closer than min_distance_m to the
last retained point unless the bearing change exceeds 20 degrees; always
keep the first point, and append the final input point when the last
retained point differs from it. -/
def deduplicate (pts : List (Coordinate α)) (minD : α) : List (Coordinate α) :=
  match pts with
  | [] => []
  | [p] => [p]
  | p :: rest =>
    let result := p :: dedupGo d brg minD p rest
    if result.getLastD origin ≠ (p :: rest).getLastD origin then
      result ++ [(p :: rest).getLastD origin]
    else result

/-- StreetMapper.map_to_streets: scale into the bbox, densify to at most
80 m segments, deduplicate with a 12 m threshold. -/
def map_to_streets (control_points : List (Coordinate α)) (bbox : BoundingBox α) :
    List (Coordinate α) :=
  deduplicate d brg (densify d (scale_to_bbox control_points bbox (1/10)) 80) 12

end Mapper

section Validator

variable (d : Coordinate α → Coordinate α → α)

/-- The list of all pairwise distances (i < j) of _compute_diameter's
exhaustive branch. -/
def pairDists (pts : List (Coordinate α)) : List α :=
  (List.range pts.length).flatMap fun i =>
    ((List.range pts.length).drop (i + 1)).map fun j =>
      d (pts.getD i origin) (pts.getD j origin)

/-- _compute_diameter: max pairwise distance for up to 60 points, otherwise
a sampled approximation.  The sampler argument models random.Random(42)
.sample as a deterministic function of the seed, the index of the call
within this invocation, the population size and the sample size. -/
def _compute_diameter (sampler : ℕ → ℕ → ℕ → ℕ → List ℕ)
    (pts : List (Coordinate α)) : α :=
  if pts.length < 2 then 0
  else if pts.length ≤ 60 then (pairDists d pts).foldl max 0
  else
    ((List.range pts.length).flatMap fun i =>
      ((sampler 42 i pts.length (min 50 pts.length)).filter fun j => j ≠ i).map
        fun j => d (pts.getD i origin) (pts.getD j origin)).foldl max 0

/-- The directed nearest-neighbor distances from each point of src to the
point set tgt. -/
def directed_distances (src tgt : List (Coordinate α)) : List α :=
  src.map fun s => listMin (tgt.map fun t => d s t)

/-- _modified_hausdorff_distance with percentile 90: pool the directed
nearest-neighbor distances of both directions and take the 90th
percentile. -/
def _modified_hausdorff_distance (a b : List (Coordinate α)) : α :=
  percentile (directed_distances d a b ++ directed_distances d b a) 90

/-- The cumulative arc-length list of _resample_curve (prefix sums of
consecutive distances, starting at 0). -/
def cumlenFrom (prev : Coordinate α) (acc : α) :
    List (Coordinate α) → List α
  | [] => []
  | q :: qs => (acc + d prev q) :: cumlenFrom q (acc + d prev q) qs

/-- The full cumulative-length list; [0] for the empty polyline as in the
source. -/
def cumlenList (pts : List (Coordinate α)) : List α :=
  match pts with
  | [] => [0]
  | p :: ps => 0 :: cumlenFrom d p 0 ps

/-- The total arc length (last entry of the cumulative list). -/
def arcTotal (pts : List (Coordinate α)) : α := (cumlenList d pts).getLastD 0

/-- The inner scan of _resample_curve: the first index i in [1, len) whose
cumulative length reaches the target arc length. -/
def findSeg (cl : List α) (t : α) : Option ℕ :=
  (List.range cl.length).find? fun i => decide (1 ≤ i) && decide (t ≤ cl.getD i 0)

/-- The interpolated point of _resample_curve once the containing segment
index is known. -/
def segPoint (pts : List (Coordinate α)) (cl : List α) (t : α) (i : ℕ) :
    Coordinate α :=
  let segLen := cl.getD i 0 - cl.getD (i - 1) 0
  let frac := if segLen = 0 then 0 else (t - cl.getD (i - 1) 0) / segLen
  lerp (pts.getD (i - 1) origin) (pts.getD i origin) frac

/-- _resample_curve: resample a polyline to exactly n points evenly spaced
by cumulative arc length. -/
def _resample_curve (pts : List (Coordinate α)) (n : ℕ) : List (Coordinate α) :=
  if pts.length < 2 ∨ n < 2 then (if n ≤ pts.length then pts.take n else pts)
  else
    let cl := cumlenList d pts
    let total := cl.getLastD 0
    if total = 0 then List.replicate n (pts.getD 0 origin)
    else
      (List.range n).filterMap fun k : ℕ =>
        let target := total * (k : α) / ((n : α) - 1)
        (findSeg cl target).map (segPoint pts cl target)

/-- _ordered_sampling_score: mean distance between index-paired resampled
points, normalized by the target diameter, as a 0-100 integer score. -/
def _ordered_sampling_score (sampler : ℕ → ℕ → ℕ → ℕ → List ℕ)
    (target actual : List (Coordinate α)) (n_samples : ℕ) : ℤ :=
  let tR := _resample_curve d target n_samples
  let aR := _resample_curve d actual n_samples
  if tR = [] ∨ aR = [] then 0
  else
    let dists := (tR.zip aR).map fun pr => d pr.1 pr.2
    let mean_dist := dists.sum / (dists.length : α)
    let diameter := _compute_diameter d sampler target
    if diameter = 0 then 0
    else pyRound ((1 - min (mean_dist / diameter) 1) * 100)

/-- _compute_shared_bbox: the padded bounding box of two point sets. -/
def _compute_shared_bbox (a b : List (Coordinate α)) (padding_pct : α) :
    BoundingBox α :=
  let all_lngs := a.map (·.lng) ++ b.map (·.lng)
  let all_lats := a.map (·.lat) ++ b.map (·.lat)
  let min_lng := listMin all_lngs
  let max_lng := listMax all_lngs
  let min_lat := listMin all_lats
  let max_lat := listMax all_lats
  let w := if max_lng - min_lng = 0 then 1/1000000 else max_lng - min_lng
  let h := if max_lat - min_lat = 0 then 1/1000000 else max_lat - min_lat
  ⟨min_lng - w * padding_pct, min_lat - h * padding_pct,
   max_lng + w * padding_pct, max_lat + h * padding_pct⟩

/-- rasterize_route's coordinate-to-pixel projection (with Y flipped). -/
def to_pixel (bbox : BoundingBox α) (size : ℕ) (c : Coordinate α) : ℤ × ℤ :=
  let w := bbox.max_lng - bbox.min_lng
  let h := bbox.max_lat - bbox.min_lat
  (pyTrunc ((c.lng - bbox.min_lng) / w * ((size : α) - 1)),
   pyTrunc ((bbox.max_lat - c.lat) / h * ((size : α) - 1)))

/-- rasterize_route: project the coordinates to pixels and draw a thick
polyline when there are at least two of them.  The drawLine argument
models PIL ImageDraw.line (pixel list, stroke width, queried pixel). -/
def rasterize_route (drawLine : List (ℤ × ℤ) → ℕ → ℤ × ℤ → Bool)
    (coords : List (Coordinate α)) (bbox : BoundingBox α)
    (size line_width : ℕ) : ℤ × ℤ → Bool :=
  let pixels := coords.map (to_pixel bbox size)
  if 2 ≤ pixels.length then drawLine pixels line_width else fun _ => false

/-- Modelled from the spec: counting the set pixels of a size-by-size
binary canvas (the numpy boolean-array sum). -/
def pixelCount (size : ℕ) (img : ℤ × ℤ → Bool) : ℕ :=
  ((List.range size).map fun i =>
    ((List.range size).filter fun j => img ((i : ℤ), (j : ℤ))).length).sum

/-- _raster_iou_score: rasterize both point lists into the shared padded
bounding box and return the pixel intersection-over-union as a 0-100
integer score. -/
def _raster_iou_score (drawLine : List (ℤ × ℤ) → ℕ → ℤ × ℤ → Bool)
    (target actual : List (Coordinate α)) (size line_width : ℕ) : ℤ :=
  let bbox := _compute_shared_bbox target actual (1/10)
  let img_t := rasterize_route drawLine target bbox size line_width
  let img_a := rasterize_route drawLine actual bbox size line_width
  let intersection := pixelCount size fun p => img_t p && img_a p
  let union := pixelCount size fun p => img_t p || img_a p
  if union = 0 then 0
  else pyRound ((intersection : α) / (union : α) * 100)

/-- The result record of validation (the reasoning f-string of the blended
branch is not modelled and left empty). -/
structure ValidationOutcome where
  score : ℤ
  passed : Bool
  method : String
  reasoning : String
deriving DecidableEq, Repr

/-- VALIDATION_THRESHOLD = int(os.environ.get("SHAPE_VALIDATION_THRESHOLD",
"45")), with the environment lookup modelled as an optional override. -/
def VALIDATION_THRESHOLD (env : Option ℤ) : ℤ := env.getD 45

/-- ShapeValidator._validate_algorithmic: blended scoring with weights
0.55 / 0.35 / 0.10, with empty-input and degenerate-target
short-circuits. -/
def _validate_algorithmic (drawLine : List (ℤ × ℤ) → ℕ → ℤ × ℤ → Bool)
    (sampler : ℕ → ℕ → ℕ → ℕ → List ℕ)
    (target actual : List (Coordinate α)) (threshold : ℤ) :
    ValidationOutcome :=
  if target = [] ∨ actual = [] then
    ⟨0, false, "algorithmic", "Empty point set"⟩
  else
    let diameter := _compute_diameter d sampler target
    if diameter = 0 then ⟨0, false, "algorithmic", "Degenerate shape"⟩
    else
      let mhd := _modified_hausdorff_distance d target actual
      let mhd_norm := min (mhd / diameter) 1
      let mhd_score := (1 - mhd_norm) * 100
      let os_score := _ordered_sampling_score d sampler target actual 50
      let iou_score := _raster_iou_score drawLine target actual 128 12
      let blended :=
        55/100 * mhd_score + 35/100 * (os_score : α) + 10/100 * (iou_score : α)
      let score := pyRound blended
      ⟨score, decide (threshold ≤ score), "algorithmic", ""⟩

end Validator

section Generator

variable (d : Coordinate α → Coordinate α → α)

/-- The midpoint of target segment i used by _tighten_control_points. -/
def segMid (target : List (Coordinate α)) (i : ℕ) : Coordinate α :=
  ⟨((target.getD i origin).lng + (target.getD (i + 1) origin).lng) / 2,
   ((target.getD i origin).lat + (target.getD (i + 1) origin).lat) / 2⟩

/-- The deviation of target segment i in _tighten_control_points: distance
from the segment midpoint to the nearest actual point (0 when the actual
polyline is empty). -/
def segDev (target actual : List (Coordinate α)) (i : ℕ) : α :=
  if actual = [] then 0
  else listMin (actual.map fun ap => d (segMid target i) ap)

/-- The indices chosen by _tighten_control_points: the top
max(1, segments // 2) segment indices after a stable descending sort by
deviation. -/
def chosenSegs (target actual : List (Coordinate α)) : List ℕ :=
  let segs := (List.range (target.length - 1)).map fun i =>
    (i, segDev d target actual i)
  let sorted := segs.insertionSort fun x y => y.2 ≤ x.2
  (sorted.take (max 1 (segs.length / 2))).map fun x => x.1

/-- ShapeGenerator._tighten_control_points: insert a midpoint control point
into each selected (worst-deviation) segment. -/
def _tighten_control_points (target actual : List (Coordinate α)) :
    List (Coordinate α) :=
  if target.length < 2 then target
  else
    let chosen := chosenSegs d target actual
    target.getD 0 origin :: (List.range (target.length - 1)).flatMap fun i =>
      if i ∈ chosen then [segMid target i, target.getD (i + 1) origin]
      else [target.getD (i + 1) origin]

end Generator

section Geodesy

/-- math.radians. -/
noncomputable def radians (x : ℝ) : ℝ := x * Real.pi / 180

/-- math.degrees. -/
noncomputable def degrees (x : ℝ) : ℝ := x * 180 / Real.pi

/-- Modelled from the spec: math.atan2 (two-argument arctangent; first
argument y, second x). -/
noncomputable def atan2 (y x : ℝ) : ℝ :=
  if 0 < x then Real.arctan (y / x)
  else if x < 0 then
    (if 0 ≤ y then Real.arctan (y / x) + Real.pi
     else Real.arctan (y / x) - Real.pi)
  else
    (if 0 < y then Real.pi / 2 else if y < 0 then -(Real.pi / 2) else 0)

/-- Python float modulo (a - b * floor(a / b)), used to normalize bearings
into [0, 360). -/
noncomputable def pyMod (a b : ℝ) : ℝ := a - b * ⌊a / b⌋

/-- haversine_distance_m: great-circle distance in meters with Earth radius
6371000 m. -/
noncomputable def haversine_distance_m (a b : Coordinate ℝ) : ℝ :=
  let R : ℝ := 6371000
  let phi1 := radians a.lat
  let phi2 := radians b.lat
  let d_phi := radians (b.lat - a.lat)
  let d_lambda := radians (b.lng - a.lng)
  let a_val := Real.sin (d_phi / 2) ^ 2 +
    Real.cos phi1 * Real.cos phi2 * Real.sin (d_lambda / 2) ^ 2
  R * 2 * atan2 (Real.sqrt a_val) (Real.sqrt (1 - a_val))

/-- _bearing_deg: initial bearing in degrees normalized to [0, 360). -/
noncomputable def _bearing_deg (a b : Coordinate ℝ) : ℝ :=
  let d_lng := radians (b.lng - a.lng)
  let lat1 := radians a.lat
  let lat2 := radians b.lat
  let x := Real.sin d_lng * Real.cos lat2
  let y := Real.cos lat1 * Real.sin lat2 -
    Real.sin lat1 * Real.cos lat2 * Real.cos d_lng
  pyMod (degrees (atan2 x y)) 360

end Geodesy

section SpecSide

variable (d : Coordinate α → Coordinate α → α)

/-- Follows the spec wording of C1: the modified-Hausdorff sub-score
100 * (1 - min(dv / diameter, 1)), dv being the 90th percentile of the
pooled directed nearest-neighbor distances of both directions. -/
def spec_mhd_score (target actual : List (Coordinate α)) (diam : α) : α :=
  100 * (1 - min (percentile
    (directed_distances d target actual ++ directed_distances d actual target)
      90 / diam) 1)

/-- Follows the spec wording of C1: the blended score
round(0.55 mhd + 0.35 ordered + 0.10 iou). -/
def spec_blended (mhd ordered iou : α) : ℤ :=
  pyRound (55/100 * mhd + 35/100 * ordered + 10/100 * iou)

/-- Follows the spec wording of C4: the resampled point at target arc
length t is the linear interpolation inside the segment containing t (the
first segment whose cumulative length reaches t). -/
def spec_arc_point (pts : List (Coordinate α)) (t : α) : Coordinate α :=
  match findSeg (cumlenList d pts) t with
  | some i => segPoint pts (cumlenList d pts) t i
  | none => origin

/-- Follows the spec wording of C5: densify rebuilt segment by segment,
each over-long segment receiving its evenly spaced interpolated points
followed by the original endpoint. -/
def spec_densify (pts : List (Coordinate α)) (maxSeg : α) : List (Coordinate α) :=
  match pts with
  | [] => []
  | [p] => [p]
  | p :: rest =>
    p :: ((p :: rest).zip rest).flatMap fun ab =>
      (if maxSeg < d ab.1 ab.2 then interpPoints d ab.1 ab.2 maxSeg else []) ++
        [ab.2]

/-- Translation of a coordinate by t times a direction vector (the
controlled shift of C7). -/
def shiftBy (p : Coordinate α) (t : α) (v : α × α) : Coordinate α :=
  ⟨p.lng + t * v.1, p.lat + t * v.2⟩

/-- Distance from a point to a point set: its nearest-neighbor distance,
used to express that a shift moves the actual set farther from the
target. -/
def setDist (tgt : List (Coordinate α)) (p : Coordinate α) : α :=
  listMin (tgt.map fun q => d p q)

end SpecSide

/-- The claim of C3 as stated: in the deduplicate output every consecutive
pair is at least 12 m apart or the later point has a bearing change above
20 degrees (with respect to its successor in the input), and the first and
last input points appear at the ends of the output. -/
def C3_claim : Prop :=
  ∀ pts : List (Coordinate ℝ), pts ≠ [] →
    List.Chain' (fun u v => 12 ≤ haversine_distance_m u v ∨
        ∃ w, List.IsInfix [v, w] pts ∧
          20 < angleChangeOf (_bearing_deg u v) (_bearing_deg v w))
      (deduplicate haversine_distance_m _bearing_deg pts 12) ∧
    (deduplicate haversine_distance_m _bearing_deg pts 12).getD 0 origin =
      pts.getD 0 origin ∧
    (deduplicate haversine_distance_m _bearing_deg pts 12).getLastD origin =
      pts.getLastD origin

/-- The claim of C5 as stated: every consecutive pair of the densify output
is at most 80 m apart, the original points are preserved in order, and the
output is the segment-by-segment rebuild with evenly spaced interpolation
points. -/
def C5_claim : Prop :=
  ∀ pts : List (Coordinate ℝ),
    List.Chain' (fun u v => haversine_distance_m u v ≤ 80)
      (densify haversine_distance_m pts 80) ∧
    pts.Sublist (densify haversine_distance_m pts 80) ∧
    densify haversine_distance_m pts 80 =
      spec_densify haversine_distance_m pts 80

/-- The claim of C6 as stated: every point set used as both target and
actual scores at least 90 and passes at the default threshold 45. -/
def C6_claim : Prop :=
  ∀ (drawLine : List (ℤ × ℤ) → ℕ → ℤ × ℤ → Bool)
    (sampler : ℕ → ℕ → ℕ → ℕ → List ℕ) (t : List (Coordinate ℝ)),
    90 ≤ (_validate_algorithmic haversine_distance_m drawLine sampler
      t t 45).score ∧
    (_validate_algorithmic haversine_distance_m drawLine sampler
      t t 45).passed = true

/-- The claim of C7 as stated: under a controlled translation shift that
takes every actual point farther from the target set, the blended score
never increases with the shift. -/
def C7_claim : Prop :=
  ∀ (drawLine : List (ℤ × ℤ) → ℕ → ℤ × ℤ → Bool)
    (sampler : ℕ → ℕ → ℕ → ℕ → List ℕ) (th : ℤ)
    (t a : List (Coordinate ℝ)) (v : ℝ × ℝ) (s u : ℝ),
    0 ≤ s → s ≤ u →
    (∀ p ∈ a, setDist haversine_distance_m t (shiftBy p s v) ≤
      setDist haversine_distance_m t (shiftBy p u v)) →
    (_validate_algorithmic haversine_distance_m drawLine sampler t
      (a.map fun p => shiftBy p u v) th).score ≤
    (_validate_algorithmic haversine_distance_m drawLine sampler t
      (a.map fun p => shiftBy p s v) th).score

/-! ## General helper lemmas -/

lemma getLastD_eq_getD {β : Type} :
    ∀ (l : List β) (x : β), l ≠ [] → l.getLastD x = l.getD (l.length - 1) x := by
  intro l
  induction l with
  | nil => intro x h; exact absurd rfl h
  | cons a m ih =>
    intro x _
    cases m with
    | nil => rfl
    | cons b k =>
      rw [List.getLastD_cons, ih a (by simp)]
      have h1 : (a :: b :: k).length - 1 = ((b :: k).length - 1) + 1 := by
        simp
      rw [h1, List.getD_cons_succ]
      have hlt : (b :: k).length - 1 < (b :: k).length := by simp
      rw [List.getD_eq_getElem _ _ hlt, List.getD_eq_getElem _ _ hlt]

lemma filterMap_eq_map_of_some {β γ : Type} (f : β → Option γ) (g : β → γ) :
    ∀ l : List β, (∀ x ∈ l, f x = some (g x)) → l.filterMap f = l.map g := by
  intro l
  induction l with
  | nil => intro _; rfl
  | cons x xs ih =>
    intro h
    have hx := h x (List.mem_cons_self x xs)
    simp only [List.filterMap_cons, hx, List.map_cons]
    exact congrArg _ (ih fun y hy => h y (List.mem_cons_of_mem _ hy))

/-! ## Arc-length and geodesy basics -/

lemma cumlenFrom_length (d : Coordinate α → Coordinate α → α) :
    ∀ (l : List (Coordinate α)) (prev : Coordinate α) (acc : α),
      (cumlenFrom d prev acc l).length = l.length := by
  intro l
  induction l with
  | nil => intro _ _; rfl
  | cons q qs ih => intro prev acc; simp [cumlenFrom, ih]

lemma cumlenList_length (d : Coordinate α → Coordinate α → α)
    (pts : List (Coordinate α)) (h : pts ≠ []) :
    (cumlenList d pts).length = pts.length := by
  cases pts with
  | nil => exact absurd rfl h
  | cons p ps => simp [cumlenList, cumlenFrom_length]

lemma cumlenFrom_getLastD_le (d : Coordinate α → Coordinate α → α)
    (hd : ∀ a b, 0 ≤ d a b) :
    ∀ (l : List (Coordinate α)) (prev : Coordinate α) (acc : α),
      acc ≤ (cumlenFrom d prev acc l).getLastD acc := by
  intro l
  induction l with
  | nil => intro prev acc; simp [cumlenFrom]
  | cons q qs ih =>
    intro prev acc
    rw [cumlenFrom, List.getLastD_cons]
    calc acc ≤ acc + d prev q := by linarith [hd prev q]
      _ ≤ _ := ih q (acc + d prev q)

lemma arcTotal_nonneg (d : Coordinate α → Coordinate α → α)
    (hd : ∀ a b, 0 ≤ d a b) (pts : List (Coordinate α)) :
    0 ≤ arcTotal d pts := by
  cases pts with
  | nil => simp [arcTotal, cumlenList]
  | cons p ps =>
    have h := cumlenFrom_getLastD_le d hd ps p 0
    have e : arcTotal d (p :: ps) = (cumlenFrom d p 0 ps).getLastD 0 := by
      unfold arcTotal cumlenList
      exact List.getLastD_cons _ _ _
    rw [e]
    exact h

lemma atan2_nonneg {y x : ℝ} (hy : 0 ≤ y) (hx : 0 ≤ x) : 0 ≤ atan2 y x := by
  unfold atan2
  by_cases h : 0 < x
  · rw [if_pos h]
    have harc : Real.arctan 0 ≤ Real.arctan (y / x) :=
      Real.arctan_strictMono.monotone (div_nonneg hy h.le)
    rwa [Real.arctan_zero] at harc
  · rw [if_neg h, if_neg (by linarith)]
    by_cases hy0 : 0 < y
    · rw [if_pos hy0]; positivity
    · rw [if_neg hy0, if_neg (by linarith)]

lemma haversine_nonneg (a b : Coordinate ℝ) : 0 ≤ haversine_distance_m a b := by
  simp only [haversine_distance_m]
  set A := Real.sin (radians (b.lat - a.lat) / 2) ^ 2 +
    Real.cos (radians a.lat) * Real.cos (radians b.lat) *
      Real.sin (radians (b.lng - a.lng) / 2) ^ 2 with hA
  have h := atan2_nonneg (Real.sqrt_nonneg A) (Real.sqrt_nonneg (1 - A))
  nlinarith [h]

lemma findSeg_isSome (cl : List α) (t : α) (h1 : 2 ≤ cl.length)
    (h2 : t ≤ cl.getD (cl.length - 1) 0) : ∃ i, findSeg cl t = some i := by
  rw [← Option.isSome_iff_exists]
  unfold findSeg
  rw [List.find?_isSome]
  refine ⟨cl.length - 1, List.mem_range.mpr (by omega), ?_⟩
  simp only [Bool.and_eq_true, decide_eq_true_eq]
  exact ⟨by omega, h2⟩

/-! ## Claim C2 -/

/-- C2: whenever the target point set is empty, the actual point set is
empty, or the target diameter is zero, the algorithmic scorer returns
score 0 and passed = false, for every actual point set and threshold (the
embedding is a total function, so no exception is possible). -/
theorem C2_degenerate_short_circuit
    (drawLine : List (ℤ × ℤ) → ℕ → ℤ × ℤ → Bool)
    (sampler : ℕ → ℕ → ℕ → ℕ → List ℕ)
    (t a : List (Coordinate ℝ)) (th : ℤ)
    (h : t = [] ∨ a = [] ∨
      _compute_diameter haversine_distance_m sampler t = 0) :
    (_validate_algorithmic haversine_distance_m drawLine sampler t a
      th).score = 0 ∧
    (_validate_algorithmic haversine_distance_m drawLine sampler t a
      th).passed = false := by
  unfold _validate_algorithmic
  rcases h with h | h | h
  · simp [h]
  · simp [h]
  · by_cases ht : t = []
    · simp [ht]
    · by_cases ha : a = []
      · simp [ha]
      · rw [if_neg (by simp [ht, ha])]
        simp [h]

/-- Witness for C2 at an empty target. -/
theorem C2_degenerate_short_circuit_witness :
    (([] : List (Coordinate ℝ)) = [] ∨ ([⟨0, 0⟩] : List (Coordinate ℝ)) = [] ∨
      _compute_diameter haversine_distance_m (fun _ _ _ _ => [])
        ([] : List (Coordinate ℝ)) = 0) ∧
    ((_validate_algorithmic haversine_distance_m (fun _ _ _ => false)
        (fun _ _ _ _ => []) ([] : List (Coordinate ℝ)) [⟨0, 0⟩] 45).score = 0 ∧
      (_validate_algorithmic haversine_distance_m (fun _ _ _ => false)
        (fun _ _ _ _ => []) ([] : List (Coordinate ℝ)) [⟨0, 0⟩] 45).passed =
        false) :=
  ⟨Or.inl rfl,
    C2_degenerate_short_circuit _ _ _ _ _ (Or.inl rfl)⟩

/-! ## Claim C9 -/

lemma _compute_diameter_sampler_congr (d : Coordinate α → Coordinate α → α)
    (s1 s2 : ℕ → ℕ → ℕ → ℕ → List ℕ)
    (h : ∀ i n k, s1 42 i n k = s2 42 i n k) (pts : List (Coordinate α)) :
    _compute_diameter d s1 pts = _compute_diameter d s2 pts := by
  unfold _compute_diameter
  have he : (fun i =>
      ((s1 42 i pts.length (min 50 pts.length)).filter fun j => j ≠ i).map
        fun j => d (pts.getD i origin) (pts.getD j origin)) = fun i =>
      ((s2 42 i pts.length (min 50 pts.length)).filter fun j => j ≠ i).map
        fun j => d (pts.getD i origin) (pts.getD j origin) := by
    funext i
    rw [h]
  rw [he]

/-- C9: the algorithmic scorer is deterministic.  Its result depends only
on the inputs and on the behavior of the random sampler at the fixed seed
42 (the seed of the large-set diameter sampler), so two invocations on the
same inputs give identical results no matter the ambient state of the
random source. -/
theorem C9_deterministic
    (drawLine : List (ℤ × ℤ) → ℕ → ℤ × ℤ → Bool)
    (s1 s2 : ℕ → ℕ → ℕ → ℕ → List ℕ)
    (t a : List (Coordinate ℝ)) (th : ℤ)
    (h : ∀ i n k, s1 42 i n k = s2 42 i n k) :
    _validate_algorithmic haversine_distance_m drawLine s1 t a th =
    _validate_algorithmic haversine_distance_m drawLine s2 t a th := by
  have hd := _compute_diameter_sampler_congr haversine_distance_m s1 s2 h
  unfold _validate_algorithmic _ordered_sampling_score
  rw [hd]

/-- Witness for C9: the determinism theorem applied at concrete inputs and
two samplers that agree at seed 42. -/
theorem C9_deterministic_witness :
    _validate_algorithmic haversine_distance_m (fun _ _ _ => false)
      (fun _ _ _ _ => []) [(⟨0, 0⟩ : Coordinate ℝ)] [⟨0, 0⟩] 45 =
    _validate_algorithmic haversine_distance_m (fun _ _ _ => false)
      (fun s _ _ _ => List.replicate (s - 42) 0) [⟨0, 0⟩] [⟨0, 0⟩] 45 :=
  C9_deterministic _ _ _ _ _ _ (fun _ _ _ => rfl)

/-! ## Claim C4 -/

/-- C4: for a polyline with at least two points and n at least 2, the
resampler returns n copies of the first point when the total arc length is
zero, and otherwise exactly n points, the k-th one being the linear
interpolation at target arc length total * k / (n - 1) inside the segment
containing that arc length. -/
theorem C4_resample_count_and_spacing
    (pts : List (Coordinate ℝ)) (n : ℕ) (h2 : 2 ≤ pts.length) (hn : 2 ≤ n) :
    (arcTotal haversine_distance_m pts = 0 →
      _resample_curve haversine_distance_m pts n =
        List.replicate n (pts.getD 0 origin)) ∧
    (arcTotal haversine_distance_m pts ≠ 0 →
      (_resample_curve haversine_distance_m pts n).length = n ∧
      _resample_curve haversine_distance_m pts n =
        (List.range n).map fun k : ℕ => spec_arc_point haversine_distance_m pts
          (arcTotal haversine_distance_m pts * (k : ℝ) / ((n : ℝ) - 1))) := by
  have hcond : ¬(pts.length < 2 ∨ n < 2) := by omega
  have hne : pts ≠ [] := by
    intro h
    rw [h] at h2
    simp at h2
  have htot : (cumlenList haversine_distance_m pts).getLastD 0 =
      arcTotal haversine_distance_m pts := rfl
  constructor
  · intro h0
    simp only [_resample_curve]
    rw [if_neg hcond, if_pos (htot.trans h0)]
  · intro h0
    have hpos : 0 < arcTotal haversine_distance_m pts :=
      lt_of_le_of_ne (arcTotal_nonneg _ haversine_nonneg pts) (Ne.symm h0)
    have hmap : _resample_curve haversine_distance_m pts n =
        (List.range n).map fun k : ℕ => spec_arc_point haversine_distance_m pts
          (arcTotal haversine_distance_m pts * (k : ℝ) / ((n : ℝ) - 1)) := by
      simp only [_resample_curve]
      rw [if_neg hcond, if_neg (htot.trans_ne h0)]
      apply filterMap_eq_map_of_some
      intro k hk
      have hkn : (k : ℝ) ≤ (n : ℝ) - 1 := by
        have hk1 : k + 1 ≤ n := List.mem_range.mp hk
        have hc : (k : ℝ) + 1 ≤ (n : ℝ) := by exact_mod_cast hk1
        linarith
      have hn1 : (0 : ℝ) < (n : ℝ) - 1 := by
        have : (2 : ℝ) ≤ (n : ℝ) := by exact_mod_cast hn
        linarith
      have hle : arcTotal haversine_distance_m pts * (k : ℝ) / ((n : ℝ) - 1) ≤
          arcTotal haversine_distance_m pts := by
        rw [div_le_iff hn1]
        calc arcTotal haversine_distance_m pts * (k : ℝ)
            ≤ arcTotal haversine_distance_m pts * ((n : ℝ) - 1) :=
              mul_le_mul_of_nonneg_left hkn hpos.le
          _ = arcTotal haversine_distance_m pts * ((n : ℝ) - 1) := rfl
      have hlen : 2 ≤ (cumlenList haversine_distance_m pts).length := by
        rw [cumlenList_length _ _ hne]
        exact h2
      have hgd : arcTotal haversine_distance_m pts * (k : ℝ) / ((n : ℝ) - 1) ≤
          (cumlenList haversine_distance_m pts).getD
            ((cumlenList haversine_distance_m pts).length - 1) 0 := by
        rw [← getLastD_eq_getD _ _ (by
          intro hnil
          rw [hnil] at hlen
          simp at hlen)]
        exact hle.trans_eq htot.symm
      obtain ⟨i, hi⟩ := findSeg_isSome (cumlenList haversine_distance_m pts)
        (arcTotal haversine_distance_m pts * (k : ℝ) / ((n : ℝ) - 1)) hlen hgd
      rw [htot, hi]
      have hs : spec_arc_point haversine_distance_m pts
          (arcTotal haversine_distance_m pts * (k : ℝ) / ((n : ℝ) - 1)) =
          segPoint pts (cumlenList haversine_distance_m pts)
            (arcTotal haversine_distance_m pts * (k : ℝ) / ((n : ℝ) - 1)) i := by
        unfold spec_arc_point
        rw [hi]
      rw [hs]
      rfl
    exact ⟨by rw [hmap]; simp, hmap⟩

/-- Witness for C4 at a concrete two-point polyline with n = 2. -/
theorem C4_resample_count_and_spacing_witness :
    (2 ≤ ([⟨0, 0⟩, ⟨1, 0⟩] : List (Coordinate ℝ)).length ∧ 2 ≤ 2) ∧
    ((arcTotal haversine_distance_m [⟨0, 0⟩, ⟨1, 0⟩] = 0 →
      _resample_curve haversine_distance_m
          ([⟨0, 0⟩, ⟨1, 0⟩] : List (Coordinate ℝ)) 2 =
        List.replicate 2 (([⟨0, 0⟩, ⟨1, 0⟩] :
          List (Coordinate ℝ)).getD 0 origin)) ∧
    (arcTotal haversine_distance_m [⟨0, 0⟩, ⟨1, 0⟩] ≠ 0 →
      (_resample_curve haversine_distance_m
        ([⟨0, 0⟩, ⟨1, 0⟩] : List (Coordinate ℝ)) 2).length = 2 ∧
      _resample_curve haversine_distance_m
          ([⟨0, 0⟩, ⟨1, 0⟩] : List (Coordinate ℝ)) 2 =
        (List.range 2).map fun k : ℕ =>
          spec_arc_point haversine_distance_m [⟨0, 0⟩, ⟨1, 0⟩]
            (arcTotal haversine_distance_m [⟨0, 0⟩, ⟨1, 0⟩] * (k : ℝ) /
              ((2 : ℝ) - 1)))) :=
  ⟨⟨by simp, le_refl 2⟩,
    C4_resample_count_and_spacing _ 2 (by simp) (le_refl 2)⟩

/-! ## Claim C10 -/

lemma foldl_min_le_init : ∀ (xs : List α) (x : α), xs.foldl min x ≤ x := by
  intro xs
  induction xs with
  | nil => intro x; exact le_refl x
  | cons a l ih =>
    intro x
    calc (a :: l).foldl min x = l.foldl min (min x a) := rfl
      _ ≤ min x a := ih _
      _ ≤ x := min_le_left _ _

lemma foldl_min_le_mem :
    ∀ (xs : List α) (x y : α), y ∈ xs → xs.foldl min x ≤ y := by
  intro xs
  induction xs with
  | nil => intro x y h; exact absurd h (List.not_mem_nil y)
  | cons a l ih =>
    intro x y h
    rcases List.mem_cons.mp h with rfl | h
    · calc (y :: l).foldl min x = l.foldl min (min x y) := rfl
        _ ≤ min x y := foldl_min_le_init _ _
        _ ≤ y := min_le_right _ _
    · exact ih (min x a) y h

lemma listMin_le {xs : List α} {y : α} (h : y ∈ xs) : listMin xs ≤ y := by
  cases xs with
  | nil => exact absurd h (List.not_mem_nil y)
  | cons a l =>
    rcases List.mem_cons.mp h with rfl | h
    · exact foldl_min_le_init _ _
    · exact foldl_min_le_mem _ _ _ h

lemma le_foldl_max_init : ∀ (xs : List α) (x : α), x ≤ xs.foldl max x := by
  intro xs
  induction xs with
  | nil => intro x; exact le_refl x
  | cons a l ih =>
    intro x
    calc x ≤ max x a := le_max_left _ _
      _ ≤ l.foldl max (max x a) := ih _
      _ = (a :: l).foldl max x := rfl

lemma le_foldl_max_mem :
    ∀ (xs : List α) (x y : α), y ∈ xs → y ≤ xs.foldl max x := by
  intro xs
  induction xs with
  | nil => intro x y h; exact absurd h (List.not_mem_nil y)
  | cons a l ih =>
    intro x y h
    rcases List.mem_cons.mp h with rfl | h
    · calc y ≤ max x y := le_max_right _ _
        _ ≤ l.foldl max (max x y) := le_foldl_max_init _ _
        _ = (y :: l).foldl max x := rfl
    · exact ih (max x a) y h

lemma le_listMax {xs : List α} {y : α} (h : y ∈ xs) : y ≤ listMax xs := by
  cases xs with
  | nil => exact absurd h (List.not_mem_nil y)
  | cons a l =>
    rcases List.mem_cons.mp h with rfl | h
    · exact le_foldl_max_init _ _
    · exact le_foldl_max_mem _ _ _ h

lemma lerp_mem_box {lo1 hi1 lo2 hi2 : α} {a b : Coordinate α} {f : α}
    (ha : lo1 ≤ a.lng ∧ a.lng ≤ hi1 ∧ lo2 ≤ a.lat ∧ a.lat ≤ hi2)
    (hb : lo1 ≤ b.lng ∧ b.lng ≤ hi1 ∧ lo2 ≤ b.lat ∧ b.lat ≤ hi2)
    (hf0 : 0 ≤ f) (hf1 : f ≤ 1) :
    lo1 ≤ (lerp a b f).lng ∧ (lerp a b f).lng ≤ hi1 ∧
    lo2 ≤ (lerp a b f).lat ∧ (lerp a b f).lat ≤ hi2 := by
  obtain ⟨ha1, ha2, ha3, ha4⟩ := ha
  obtain ⟨hb1, hb2, hb3, hb4⟩ := hb
  refine ⟨?_, ?_, ?_, ?_⟩ <;> simp only [lerp] <;> nlinarith

/-- Any box predicate is preserved by the densify interpolation points. -/
lemma interpPoints_mem_box (d : Coordinate α → Coordinate α → α)
    {lo1 hi1 lo2 hi2 : α} {a b : Coordinate α} {maxSeg : α}
    (ha : lo1 ≤ a.lng ∧ a.lng ≤ hi1 ∧ lo2 ≤ a.lat ∧ a.lat ≤ hi2)
    (hb : lo1 ≤ b.lng ∧ b.lng ≤ hi1 ∧ lo2 ≤ b.lat ∧ b.lat ≤ hi2) :
    ∀ q ∈ interpPoints d a b maxSeg,
      lo1 ≤ q.lng ∧ q.lng ≤ hi1 ∧ lo2 ≤ q.lat ∧ q.lat ≤ hi2 := by
  intro q hq
  simp only [interpPoints, List.mem_map] at hq
  obtain ⟨j, hj, rfl⟩ := hq
  rw [List.mem_range'_1] at hj
  obtain ⟨hj1, hj2⟩ := hj
  set n := (⌈d a b / maxSeg⌉).toNat with hn
  have hnpos : 1 ≤ n := by omega
  have hjn : j ≤ n := by omega
  have hf0 : (0 : α) ≤ (j : α) / (n : α) := by positivity
  have hf1 : (j : α) / (n : α) ≤ 1 := by
    rw [div_le_one (by exact_mod_cast hnpos)]
    exact_mod_cast hjn
  exact lerp_mem_box ha hb hf0 hf1

lemma densifyGo_mem_box (d : Coordinate α → Coordinate α → α)
    {lo1 hi1 lo2 hi2 : α} (maxSeg : α) :
    ∀ (rest : List (Coordinate α)) (a : Coordinate α),
      (lo1 ≤ a.lng ∧ a.lng ≤ hi1 ∧ lo2 ≤ a.lat ∧ a.lat ≤ hi2) →
      (∀ p ∈ rest, lo1 ≤ p.lng ∧ p.lng ≤ hi1 ∧ lo2 ≤ p.lat ∧ p.lat ≤ hi2) →
      ∀ q ∈ densifyGo d maxSeg a rest,
        lo1 ≤ q.lng ∧ q.lng ≤ hi1 ∧ lo2 ≤ q.lat ∧ q.lat ≤ hi2 := by
  intro rest
  induction rest with
  | nil => intro a _ _ q hq; simp [densifyGo] at hq
  | cons b rest ih =>
    intro a ha hrest q hq
    have hb := hrest b (List.mem_cons_self b rest)
    simp only [densifyGo, List.mem_append, List.mem_cons] at hq
    rcases hq with hq | hq | hq
    · by_cases hcond : maxSeg < d a b
      · rw [if_pos hcond] at hq
        exact interpPoints_mem_box d ha hb q hq
      · rw [if_neg hcond] at hq
        exact absurd hq (List.not_mem_nil q)
    · subst hq; exact hb
    · exact ih b hb (fun p hp => hrest p (List.mem_cons_of_mem _ hp)) q hq

lemma densify_mem_box (d : Coordinate α → Coordinate α → α)
    {lo1 hi1 lo2 hi2 : α} (pts : List (Coordinate α)) (maxSeg : α)
    (h : ∀ p ∈ pts, lo1 ≤ p.lng ∧ p.lng ≤ hi1 ∧ lo2 ≤ p.lat ∧ p.lat ≤ hi2) :
    ∀ q ∈ densify d pts maxSeg,
      lo1 ≤ q.lng ∧ q.lng ≤ hi1 ∧ lo2 ≤ q.lat ∧ q.lat ≤ hi2 := by
  intro q hq
  match pts, h with
  | [], _ => simp [densify] at hq
  | [p], h =>
    simp only [densify, List.mem_singleton] at hq
    subst hq
    exact h _ (List.mem_singleton_self _)
  | p :: b :: rest, h =>
    simp only [densify, List.mem_cons] at hq
    rcases hq with hq | hq
    · subst hq; exact h q (by simp)
    · exact densifyGo_mem_box d maxSeg (b :: rest) p (h p (by simp))
        (fun r hr => h r (List.mem_cons_of_mem _ hr)) q hq

lemma dedupGo_subset (d brg : Coordinate α → Coordinate α → α) (minD : α) :
    ∀ (rest : List (Coordinate α)) (last q : Coordinate α),
      q ∈ dedupGo d brg minD last rest → q ∈ rest := by
  intro rest
  induction rest with
  | nil => intro last q hq; simp [dedupGo] at hq
  | cons p rest ih =>
    intro last q hq
    cases rest with
    | nil =>
      simp only [dedupGo] at hq
      split at hq
      · rw [List.mem_singleton] at hq; subst hq; exact List.mem_singleton_self q
      · exact absurd hq (List.not_mem_nil q)
    | cons r rest2 =>
      simp only [dedupGo] at hq
      split at hq
      · rcases List.mem_cons.mp hq with hq | hq
        · subst hq; exact List.mem_cons_self _ _
        · exact List.mem_cons_of_mem _ (ih p q hq)
      · split at hq
        · rcases List.mem_cons.mp hq with hq | hq
          · subst hq; exact List.mem_cons_self _ _
          · exact List.mem_cons_of_mem _ (ih p q hq)
        · exact List.mem_cons_of_mem _ (ih last q hq)

lemma getLastD_mem_of_ne_nil {β : Type} :
    ∀ (l : List β) (x : β), l ≠ [] → l.getLastD x ∈ l := by
  intro l
  induction l with
  | nil => intro x h; exact absurd rfl h
  | cons a m ih =>
    intro x _
    cases m with
    | nil => exact List.mem_singleton_self a
    | cons b k =>
      rw [List.getLastD_cons]
      exact List.mem_cons_of_mem _ (ih a (by simp))

lemma deduplicate_subset (d brg : Coordinate α → Coordinate α → α)
    (pts : List (Coordinate α)) (minD : α) :
    ∀ q ∈ deduplicate d brg pts minD, q ∈ pts := by
  intro q hq
  match pts with
  | [] => simpa [deduplicate] using hq
  | [p] => simpa [deduplicate] using hq
  | p :: r :: rest =>
    simp only [deduplicate] at hq
    split at hq
    · rw [List.mem_append] at hq
      rcases hq with hq | hq
      · rcases List.mem_cons.mp hq with hq | hq
        · subst hq; exact List.mem_cons_self _ _
        · exact List.mem_cons_of_mem _ (dedupGo_subset d brg minD _ _ _ hq)
      · rw [List.mem_singleton] at hq
        subst hq
        exact getLastD_mem_of_ne_nil _ _ (by simp)
    · rcases List.mem_cons.mp hq with hq | hq
      · subst hq; exact List.mem_cons_self _ _
      · exact List.mem_cons_of_mem _ (dedupGo_subset d brg minD _ _ _ hq)

lemma scale_to_bbox_mem_bbox (pts : List (Coordinate α)) (bbox : BoundingBox α)
    (hw : 0 < bbox.width_deg) (hh : 0 < bbox.height_deg) :
    ∀ q ∈ scale_to_bbox pts bbox (1/10),
      bbox.min_lng ≤ q.lng ∧ q.lng ≤ bbox.max_lng ∧
      bbox.min_lat ≤ q.lat ∧ q.lat ≤ bbox.max_lat := by
  cases pts with
  | nil => intro q hq; simp [scale_to_bbox] at hq
  | cons p0 rest =>
    intro q hq
    simp only [scale_to_bbox, List.mem_map] at hq
    obtain ⟨p, hp, rfl⟩ := hq
    set mnx := listMin ((p0 :: rest).map (·.lng)) with hmnx
    set mxx := listMax ((p0 :: rest).map (·.lng)) with hmxx
    set mny := listMin ((p0 :: rest).map (·.lat)) with hmny
    set mxy := listMax ((p0 :: rest).map (·.lat)) with hmxy
    have hpx1 : mnx ≤ p.lng := listMin_le (List.mem_map_of_mem _ hp)
    have hpx2 : p.lng ≤ mxx := le_listMax (List.mem_map_of_mem _ hp)
    have hpy1 : mny ≤ p.lat := listMin_le (List.mem_map_of_mem _ hp)
    have hpy2 : p.lat ≤ mxy := le_listMax (List.mem_map_of_mem _ hp)
    set sw := if mxx - mnx = 0 then (1/1000000 : α) else mxx - mnx with hsw
    set sh := if mxy - mny = 0 then (1/1000000 : α) else mxy - mny with hsh
    have hswp : 0 < sw := by
      rw [hsw]; split
      · norm_num
      · rcases lt_or_eq_of_le (le_trans hpx1 hpx2) with h | h
        · linarith
        · simp_all
    have hshp : 0 < sh := by
      rw [hsh]; split
      · norm_num
      · rcases lt_or_eq_of_le (le_trans hpy1 hpy2) with h | h
        · linarith
        · simp_all
    have hswge : mxx - mnx ≤ sw := by
      rw [hsw]; split
      · linarith [le_trans hpx1 hpx2]
      · exact le_refl _
    have hshge : mxy - mny ≤ sh := by
      rw [hsh]; split
      · linarith [le_trans hpy1 hpy2]
      · exact le_refl _
    set tw := bbox.width_deg - 2 * (bbox.width_deg * (1/10)) with htw
    set th' := bbox.height_deg - 2 * (bbox.height_deg * (1/10)) with hth
    have htwp : 0 < tw := by rw [htw]; linarith
    have hthp : 0 < th' := by rw [hth]; linarith
    set scl := min (tw / sw) (th' / sh) with hscl
    have hsclp : 0 < scl :=
      lt_min (div_pos htwp hswp) (div_pos hthp hshp)
    have hscl_w : scl ≤ tw / sw := min_le_left _ _
    have hscl_h : scl ≤ th' / sh := min_le_right _ _
    have habsx : |p.lng - (mnx + mxx) / 2| ≤ sw / 2 := by
      rw [abs_le]; constructor <;> linarith
    have habsy : |p.lat - (mny + mxy) / 2| ≤ sh / 2 := by
      rw [abs_le]; constructor <;> linarith
    have hboundx : |(p.lng - (mnx + mxx) / 2) * scl| ≤ tw / 2 := by
      rw [abs_mul, abs_of_pos hsclp]
      calc |p.lng - (mnx + mxx) / 2| * scl ≤ (sw / 2) * (tw / sw) :=
        mul_le_mul habsx hscl_w hsclp.le (by positivity)
        _ = tw / 2 := by field_simp; ring
    have hboundy : |(p.lat - (mny + mxy) / 2) * scl| ≤ th' / 2 := by
      rw [abs_mul, abs_of_pos hsclp]
      calc |p.lat - (mny + mxy) / 2| * scl ≤ (sh / 2) * (th' / sh) :=
        mul_le_mul habsy hscl_h hsclp.le (by positivity)
        _ = th' / 2 := by field_simp; ring
    rw [abs_le] at hboundx hboundy
    obtain ⟨hbx1, hbx2⟩ := hboundx
    obtain ⟨hby1, hby2⟩ := hboundy
    have htw4 : tw = (4/5) * (bbox.max_lng - bbox.min_lng) := by
      rw [htw]; unfold BoundingBox.width_deg; ring
    have hth4 : th' = (4/5) * (bbox.max_lat - bbox.min_lat) := by
      rw [hth]; unfold BoundingBox.height_deg; ring
    have hw2 : 0 < bbox.max_lng - bbox.min_lng := hw
    have hh2 : 0 < bbox.max_lat - bbox.min_lat := hh
    refine ⟨?_, ?_, ?_, ?_⟩ <;> dsimp only <;> linarith

/-- C10: with a non-empty control-point list and a target box of positive
width and height, every coordinate produced by map_to_streets lies inside
the target bounding box: scaling lands in the padded interior,
densification only inserts convex combinations, and deduplication only
removes points. -/
theorem C10_map_to_streets_in_bbox (cps : List (Coordinate ℝ))
    (bbox : BoundingBox ℝ) (hne : cps ≠ [])
    (hw : 0 < bbox.width_deg) (hh : 0 < bbox.height_deg) :
    ∀ q ∈ map_to_streets haversine_distance_m _bearing_deg cps bbox,
      bbox.min_lng ≤ q.lng ∧ q.lng ≤ bbox.max_lng ∧
      bbox.min_lat ≤ q.lat ∧ q.lat ≤ bbox.max_lat := by
  intro q hq
  unfold map_to_streets at hq
  have h1 := deduplicate_subset haversine_distance_m _bearing_deg _ 12 q hq
  exact densify_mem_box haversine_distance_m _ 80
    (scale_to_bbox_mem_bbox cps bbox hw hh) q h1

/-- Witness for C10 at a single control point and the unit box. -/
theorem C10_map_to_streets_in_bbox_witness :
    (([⟨0, 0⟩] : List (Coordinate ℝ)) ≠ [] ∧
      0 < (BoundingBox.mk (0 : ℝ) 0 1 1).width_deg ∧
      0 < (BoundingBox.mk (0 : ℝ) 0 1 1).height_deg) ∧
    (∀ q ∈ map_to_streets haversine_distance_m _bearing_deg
        ([⟨0, 0⟩] : List (Coordinate ℝ)) (BoundingBox.mk (0 : ℝ) 0 1 1),
      (BoundingBox.mk (0 : ℝ) 0 1 1).min_lng ≤ q.lng ∧
      q.lng ≤ (BoundingBox.mk (0 : ℝ) 0 1 1).max_lng ∧
      (BoundingBox.mk (0 : ℝ) 0 1 1).min_lat ≤ q.lat ∧
      q.lat ≤ (BoundingBox.mk (0 : ℝ) 0 1 1).max_lat) :=
  ⟨⟨by simp, by norm_num [BoundingBox.width_deg], by
      norm_num [BoundingBox.height_deg]⟩,
    C10_map_to_streets_in_bbox _ _ (by simp)
      (by norm_num [BoundingBox.width_deg])
      (by norm_num [BoundingBox.height_deg])⟩

/-! ## Claim C8 -/

lemma sum_map_ite_mem (ch : List ℕ) :
    ∀ l : List ℕ, (l.map fun i => if i ∈ ch then 2 else 1).sum =
      l.length + (l.filter fun i => decide (i ∈ ch)).length := by
  intro l
  induction l with
  | nil => rfl
  | cons a l ih =>
    by_cases h : a ∈ ch
    · simp only [List.map_cons, List.sum_cons, if_pos h, List.filter_cons,
        decide_eq_true_eq, h, ite_true, List.length_cons, List.length_cons, ih]
      omega
    · simp only [List.map_cons, List.sum_cons, if_neg h, List.filter_cons,
        decide_eq_true_eq, h, ite_false, List.length_cons, ih]
      omega

lemma filter_range_perm (ch : List ℕ) (m : ℕ) (hnd : ch.Nodup)
    (hlt : ∀ x ∈ ch, x < m) :
    List.Perm ((List.range m).filter fun i => decide (i ∈ ch)) ch := by
  apply List.perm_of_nodup_nodup_toFinset_eq
  · exact (List.nodup_range m).filter _
  · exact hnd
  · ext x
    simp only [List.mem_toFinset, List.mem_filter, List.mem_range,
      decide_eq_true_eq]
    constructor
    · rintro ⟨_, h⟩; exact h
    · intro h; exact ⟨hlt x h, h⟩

lemma eq_head_cons_map_getD (ts : List (Coordinate α)) (h : 1 ≤ ts.length) :
    ts = ts.getD 0 origin ::
      (List.range (ts.length - 1)).map fun i => ts.getD (i + 1) origin := by
  apply List.ext_getElem
  · simp
    omega
  · intro n h1 h2
    cases n with
    | zero =>
      simp only [List.getElem_cons_zero]
      rw [List.getD_eq_getElem _ _ (by omega)]
    | succ n =>
      simp only [List.getElem_cons_succ, List.getElem_map, List.getElem_range]
      rw [List.getD_eq_getElem _ _ (by omega)]

lemma map_sublist_flatMap (g : ℕ → Coordinate α)
    (opt : ℕ → List (Coordinate α)) :
    ∀ m : ℕ, ((List.range m).map g).Sublist
      ((List.range m).flatMap fun i => opt i ++ [g i]) := by
  intro m
  induction m with
  | zero => simp
  | succ m ih =>
    rw [List.range_succ, List.map_append, List.flatMap_append]
    refine ih.append ?_
    simp only [List.flatMap_cons, List.flatMap_nil, List.append_nil,
      List.map_cons, List.map_nil]
    exact List.sublist_append_right _ _

lemma chosenSegs_spec (d : Coordinate α → Coordinate α → α)
    (target actual : List (Coordinate α)) :
    (chosenSegs d target actual).length =
      min (max 1 ((target.length - 1) / 2)) (target.length - 1) ∧
    (chosenSegs d target actual).Nodup ∧
    (∀ i ∈ chosenSegs d target actual, i < target.length - 1) ∧
    (∀ i ∈ chosenSegs d target actual, ∀ j, j < target.length - 1 →
      j ∉ chosenSegs d target actual →
      segDev d target actual j ≤ segDev d target actual i) := by
  classical
  set n1 := target.length - 1 with hn1
  set segs := (List.range n1).map (fun i => (i, segDev d target actual i))
    with hsegs
  set r : ℕ × α → ℕ × α → Prop := fun x y => y.2 ≤ x.2 with hr
  haveI hrt : IsTotal (ℕ × α) r := ⟨fun a b => le_total b.2 a.2⟩
  haveI hrr : IsTrans (ℕ × α) r := ⟨fun a b c hab hbc => le_trans hbc hab⟩
  have hperm : List.Perm (segs.insertionSort r) segs :=
    List.perm_insertionSort r segs
  have hsort : List.Sorted r (segs.insertionSort r) :=
    List.sorted_insertionSort r segs
  have hseglen : segs.length = n1 := by
    rw [hsegs, List.length_map, List.length_range]
  set k0 := max 1 (segs.length / 2) with hk0
  have hchosen : chosenSegs d target actual =
      ((segs.insertionSort r).take k0).map fun x => x.1 := rfl
  have hsortlen : (segs.insertionSort r).length = n1 :=
    hperm.length_eq.trans hseglen
  have hmem_segs : ∀ x ∈ segs, x.2 = segDev d target actual x.1 := by
    intro x hx
    rw [hsegs] at hx
    obtain ⟨i0, _, rfl⟩ := List.mem_map.mp hx
    rfl
  have hmem_segs_lt : ∀ x ∈ segs, x.1 < n1 := by
    intro x hx
    rw [hsegs] at hx
    obtain ⟨i0, hi0, rfl⟩ := List.mem_map.mp hx
    exact List.mem_range.mp hi0
  have hmap1 : segs.map (fun x => x.1) = List.range n1 := by
    rw [hsegs, List.map_map]
    exact List.map_id _
  refine ⟨?_, ?_, ?_, ?_⟩
  · rw [hchosen, List.length_map, List.length_take, hsortlen, hk0, hseglen]
  · rw [hchosen]
    have hnd : (((segs.insertionSort r).map fun x => x.1)).Nodup := by
      have hp2 : List.Perm ((segs.insertionSort r).map fun x => x.1)
          (segs.map fun x => x.1) := hperm.map _
      rw [hp2.nodup_iff, hmap1]
      exact List.nodup_range n1
    exact ((List.take_sublist k0 _).map _).nodup hnd
  · intro i hi
    rw [hchosen] at hi
    obtain ⟨x, hx, rfl⟩ := List.mem_map.mp hi
    exact hmem_segs_lt x (hperm.mem_iff.mp (List.mem_of_mem_take hx))
  · intro i hi j hj hjn
    rw [hchosen] at hi
    obtain ⟨x, hxtake, rfl⟩ := List.mem_map.mp hi
    have hxval : x.2 = segDev d target actual x.1 :=
      hmem_segs x (hperm.mem_iff.mp (List.mem_of_mem_take hxtake))
    have hjmem : (j, segDev d target actual j) ∈ segs.insertionSort r := by
      rw [hperm.mem_iff, hsegs]
      exact List.mem_map.mpr ⟨j, List.mem_range.mpr hj, rfl⟩
    have hjdrop : (j, segDev d target actual j) ∈
        (segs.insertionSort r).drop k0 := by
      have hsplit := List.take_append_drop k0 (segs.insertionSort r)
      have hm : (j, segDev d target actual j) ∈
          (segs.insertionSort r).take k0 ++ (segs.insertionSort r).drop k0 := by
        rw [hsplit]
        exact hjmem
      rcases List.mem_append.mp hm with hmem | hmem
      · exact absurd (by rw [hchosen]; exact List.mem_map.mpr ⟨_, hmem, rfl⟩) hjn
      · exact hmem
    have hpair : List.Pairwise r (segs.insertionSort r) := hsort
    rw [← List.take_append_drop k0 (segs.insertionSort r)] at hpair
    have hcross := (List.pairwise_append.mp hpair).2.2
    have hrx := hcross x hxtake _ hjdrop
    rw [hr] at hrx
    simpa [hxval] using hrx

lemma tighten_structure (d : Coordinate α → Coordinate α → α)
    (target actual : List (Coordinate α)) (h2 : 2 ≤ target.length) :
    (_tighten_control_points d target actual).length =
      target.length + (chosenSegs d target actual).length ∧
    target.Sublist (_tighten_control_points d target actual) ∧
    (∀ i ∈ chosenSegs d target actual,
      segMid target i ∈ _tighten_control_points d target actual) := by
  classical
  obtain ⟨hlen, hnd, hlt, _⟩ := chosenSegs_spec d target actual
  set ch := chosenSegs d target actual with hch
  have hcond : ¬(target.length < 2) := by omega
  have htight : _tighten_control_points d target actual =
      target.getD 0 origin :: (List.range (target.length - 1)).flatMap fun i =>
        if i ∈ ch then [segMid target i, target.getD (i + 1) origin]
        else [target.getD (i + 1) origin] := by
    unfold _tighten_control_points
    rw [if_neg hcond]
  refine ⟨?_, ?_, ?_⟩
  · rw [htight, List.length_cons, List.flatMap_def, List.length_flatten,
      List.map_map]
    have hbodylen : ((List.range (target.length - 1)).map
        (List.length ∘ fun i =>
          if i ∈ ch then [segMid target i, target.getD (i + 1) origin]
          else [target.getD (i + 1) origin])) =
        (List.range (target.length - 1)).map fun i =>
          if i ∈ ch then 2 else 1 := by
      apply List.map_congr_left
      intro i _
      by_cases h : i ∈ ch
      · simp [h, Function.comp]
      · simp [h, Function.comp]
    rw [hbodylen, sum_map_ite_mem, List.length_range]
    have hfl : ((List.range (target.length - 1)).filter
        fun i => decide (i ∈ ch)).length = ch.length :=
      (filter_range_perm ch (target.length - 1) hnd hlt).length_eq
    omega
  · have htgt := eq_head_cons_map_getD target (by omega)
    rw [htight]
    conv_lhs => rw [htgt]
    have hbody : (fun i : ℕ =>
        if i ∈ ch then [segMid target i, target.getD (i + 1) origin]
        else [target.getD (i + 1) origin]) = fun i =>
        (if i ∈ ch then [segMid target i] else []) ++
          [target.getD (i + 1) origin] := by
      funext i
      by_cases h : i ∈ ch <;> simp [h]
    rw [hbody]
    exact List.Sublist.cons₂ _ (map_sublist_flatMap _ _ _)
  · intro i hi
    rw [htight]
    refine List.mem_cons_of_mem _ ?_
    refine List.mem_flatMap.mpr ⟨i, List.mem_range.mpr (hlt i hi), ?_⟩
    rw [if_pos hi]
    exact List.mem_cons_self _ _

/-- C8: for a target outline of at least two points, the tightening step
selects exactly max(1, segments / 2) segment indices, all valid, whose
deviations dominate those of every unselected segment; it inserts the
midpoint of each selected segment only, preserving the original points and
their order, so the output length is the input length plus the number of
selected segments. -/
theorem C8_tighten_selects_worst_half (target actual : List (Coordinate ℝ))
    (h2 : 2 ≤ target.length) :
    (chosenSegs haversine_distance_m target actual).length =
      max 1 ((target.length - 1) / 2) ∧
    (∀ i ∈ chosenSegs haversine_distance_m target actual,
      i < target.length - 1) ∧
    (∀ i ∈ chosenSegs haversine_distance_m target actual,
      ∀ j, j < target.length - 1 →
        j ∉ chosenSegs haversine_distance_m target actual →
        segDev haversine_distance_m target actual j ≤
          segDev haversine_distance_m target actual i) ∧
    (_tighten_control_points haversine_distance_m target actual).length =
      target.length + max 1 ((target.length - 1) / 2) ∧
    target.Sublist
      (_tighten_control_points haversine_distance_m target actual) ∧
    (∀ i ∈ chosenSegs haversine_distance_m target actual,
      segMid target i ∈
        _tighten_control_points haversine_distance_m target actual) := by
  obtain ⟨hlen, hnd, hlt, hdom⟩ :=
    chosenSegs_spec haversine_distance_m target actual
  obtain ⟨hlen2, hsub, hmid⟩ :=
    tighten_structure haversine_distance_m target actual h2
  have hk : min (max 1 ((target.length - 1) / 2)) (target.length - 1) =
      max 1 ((target.length - 1) / 2) := by omega
  exact ⟨hlen.trans hk, hlt, hdom, by rw [hlen2, hlen, hk], hsub, hmid⟩

/-- Witness for C8 at a concrete two-point target and empty actual. -/
theorem C8_tighten_selects_worst_half_witness :
    (2 ≤ ([⟨0, 0⟩, ⟨1, 0⟩] : List (Coordinate ℝ)).length) ∧
    ((chosenSegs haversine_distance_m
        ([⟨0, 0⟩, ⟨1, 0⟩] : List (Coordinate ℝ)) []).length =
      max 1 ((([⟨0, 0⟩, ⟨1, 0⟩] : List (Coordinate ℝ)).length - 1) / 2) ∧
    (∀ i ∈ chosenSegs haversine_distance_m
        ([⟨0, 0⟩, ⟨1, 0⟩] : List (Coordinate ℝ)) [],
      i < ([⟨0, 0⟩, ⟨1, 0⟩] : List (Coordinate ℝ)).length - 1) ∧
    (∀ i ∈ chosenSegs haversine_distance_m
        ([⟨0, 0⟩, ⟨1, 0⟩] : List (Coordinate ℝ)) [],
      ∀ j, j < ([⟨0, 0⟩, ⟨1, 0⟩] : List (Coordinate ℝ)).length - 1 →
        j ∉ chosenSegs haversine_distance_m
          ([⟨0, 0⟩, ⟨1, 0⟩] : List (Coordinate ℝ)) [] →
        segDev haversine_distance_m ([⟨0, 0⟩, ⟨1, 0⟩] : List (Coordinate ℝ))
            [] j ≤
          segDev haversine_distance_m ([⟨0, 0⟩, ⟨1, 0⟩] : List (Coordinate ℝ))
            [] i) ∧
    (_tighten_control_points haversine_distance_m
        ([⟨0, 0⟩, ⟨1, 0⟩] : List (Coordinate ℝ)) []).length =
      ([⟨0, 0⟩, ⟨1, 0⟩] : List (Coordinate ℝ)).length +
        max 1 ((([⟨0, 0⟩, ⟨1, 0⟩] : List (Coordinate ℝ)).length - 1) / 2) ∧
    ([⟨0, 0⟩, ⟨1, 0⟩] : List (Coordinate ℝ)).Sublist
      (_tighten_control_points haversine_distance_m
        ([⟨0, 0⟩, ⟨1, 0⟩] : List (Coordinate ℝ)) []) ∧
    (∀ i ∈ chosenSegs haversine_distance_m
        ([⟨0, 0⟩, ⟨1, 0⟩] : List (Coordinate ℝ)) [],
      segMid ([⟨0, 0⟩, ⟨1, 0⟩] : List (Coordinate ℝ)) i ∈
        _tighten_control_points haversine_distance_m
          ([⟨0, 0⟩, ⟨1, 0⟩] : List (Coordinate ℝ)) [])) :=
  ⟨by simp, C8_tighten_selects_worst_half _ _ (by simp)⟩

/-! ## Closed forms of the haversine distance on the equator -/

lemma atan2_sin_cos {t : ℝ} (h : |t| ≤ Real.pi / 2) :
    atan2 (Real.sqrt (Real.sin t ^ 2)) (Real.sqrt (1 - Real.sin t ^ 2)) =
      |t| := by
  have habs := abs_le.mp h
  have hc : Real.sqrt (Real.sin t ^ 2) = |Real.sin t| := Real.sqrt_sq_eq_abs _
  have hcos_nonneg : 0 ≤ Real.cos t :=
    Real.cos_nonneg_of_mem_Icc ⟨by linarith [habs.1], habs.2⟩
  have h2 : Real.sqrt (1 - Real.sin t ^ 2) = Real.cos t := by
    rw [← Real.cos_sq' t, Real.sqrt_sq hcos_nonneg]
  rw [hc, h2]
  have hsabs : |Real.sin t| = Real.sin |t| := by
    rcases le_or_lt 0 t with h0 | h0
    · rw [abs_of_nonneg h0,
        abs_of_nonneg (Real.sin_nonneg_of_nonneg_of_le_pi h0
          (by linarith [Real.pi_pos]))]
    · have hsn : Real.sin t ≤ 0 :=
        Real.sin_nonpos_of_nonnpos_of_neg_pi_le h0.le
          (by linarith [Real.pi_pos])
      rw [abs_of_neg h0, abs_of_nonpos hsn, Real.sin_neg]
  rcases lt_or_eq_of_le hcos_nonneg with hpos | hzero
  · unfold atan2
    rw [if_pos hpos]
    have habs_lt : |t| < Real.pi / 2 := by
      rcases lt_or_eq_of_le h with hlt | heq
      · exact hlt
      · exfalso
        have hz : Real.cos t = 0 := by
          rw [← Real.cos_abs, heq, Real.cos_pi_div_two]
        linarith
    rw [hsabs, show Real.cos t = Real.cos |t| from (Real.cos_abs t).symm,
      ← Real.tan_eq_sin_div_cos]
    exact Real.arctan_tan (by linarith [abs_nonneg t, Real.pi_pos]) habs_lt
  · have hcz : Real.cos t = 0 := hzero.symm
    rw [hcz]
    unfold atan2
    rw [if_neg (lt_irrefl 0), if_neg (lt_irrefl 0)]
    have habs_eq : |t| = Real.pi / 2 := by
      by_contra hne
      have hlt : |t| < Real.pi / 2 := lt_of_le_of_ne h hne
      have hp : 0 < Real.cos t := by
        rw [← Real.cos_abs]
        exact Real.cos_pos_of_mem_Ioo
          ⟨by linarith [abs_nonneg t, Real.pi_pos], hlt⟩
      linarith
    have hsin1 : |Real.sin t| = 1 := by
      rw [hsabs, habs_eq, Real.sin_pi_div_two]
    rw [hsin1, if_pos one_pos, habs_eq]

lemma radians_as_mul (x : ℝ) : radians x = x * (Real.pi / 180) := by
  unfold radians
  ring

/-- On the equator, the haversine distance is linear in the longitude
difference: R * pi / 180 meters per degree. -/
lemma haversine_equator (x y : ℝ) (h : |y - x| ≤ 180) :
    haversine_distance_m ⟨x, 0⟩ ⟨y, 0⟩ =
      6371000 * (Real.pi / 180) * |y - x| := by
  simp only [haversine_distance_m]
  have key : Real.sin (radians ((0 : ℝ) - 0) / 2) ^ 2 +
      Real.cos (radians 0) * Real.cos (radians 0) *
        Real.sin (radians (y - x) / 2) ^ 2 =
      Real.sin (radians (y - x) / 2) ^ 2 := by
    norm_num [radians]
  rw [key]
  have hrw : radians (y - x) / 2 = (y - x) * (Real.pi / 360) := by
    rw [radians_as_mul]
    ring
  have habs2 : |radians (y - x) / 2| = |y - x| * (Real.pi / 360) := by
    rw [hrw, abs_mul, abs_of_pos (by positivity : (0 : ℝ) < Real.pi / 360)]
  have hbnd : |radians (y - x) / 2| ≤ Real.pi / 2 := by
    rw [habs2]
    calc |y - x| * (Real.pi / 360) ≤ 180 * (Real.pi / 360) :=
      mul_le_mul_of_nonneg_right h (by positivity)
      _ = Real.pi / 2 := by ring
  rw [atan2_sin_cos hbnd, habs2]
  ring

/-- The haversine distance from a point to itself is 0. -/
lemma haversine_self (p : Coordinate ℝ) : haversine_distance_m p p = 0 := by
  simp only [haversine_distance_m, sub_self]
  have h0 : radians 0 = 0 := by simp [radians]
  rw [h0]
  norm_num
  unfold atan2
  rw [if_pos one_pos]
  norm_num [Real.arctan_zero]

lemma diameter_pair (d : Coordinate α → Coordinate α → α)
    (smp : ℕ → ℕ → ℕ → ℕ → List ℕ) (p q : Coordinate α) (hd : 0 ≤ d p q) :
    _compute_diameter d smp [p, q] = d p q := by
  unfold _compute_diameter
  rw [if_neg (by simp), if_pos (by simp)]
  have hpd : pairDists d [p, q] = [d p q] := rfl
  rw [hpd]
  exact max_eq_right hd

/-! ## Claim C1 -/

/-- C1: for non-empty inputs with positive target diameter the scorer
returns round(0.55 mhd + 0.35 ordered + 0.10 iou), the modified-Hausdorff
sub-score being 100 * (1 - min(dv / diameter, 1)) with dv the 90th
percentile of the pooled directed nearest-neighbor distances; passed is
score >= threshold, and the default threshold is 45. -/
theorem C1_blended_score_formula
    (drawLine : List (ℤ × ℤ) → ℕ → ℤ × ℤ → Bool)
    (sampler : ℕ → ℕ → ℕ → ℕ → List ℕ)
    (t a : List (Coordinate ℝ)) (th : ℤ)
    (ht : t ≠ []) (ha : a ≠ [])
    (hd : 0 < _compute_diameter haversine_distance_m sampler t) :
    (_validate_algorithmic haversine_distance_m drawLine sampler t a
        th).score =
      spec_blended
        (spec_mhd_score haversine_distance_m t a
          (_compute_diameter haversine_distance_m sampler t))
        ((_ordered_sampling_score haversine_distance_m sampler t a 50 : ℤ) : ℝ)
        ((_raster_iou_score drawLine t a 128 12 : ℤ) : ℝ) ∧
    ((_validate_algorithmic haversine_distance_m drawLine sampler t a
        th).passed =
      decide (th ≤ (_validate_algorithmic haversine_distance_m drawLine
        sampler t a th).score)) ∧
    VALIDATION_THRESHOLD none = 45 := by
  have hcond : ¬(t = [] ∨ a = []) := by simp [ht, ha]
  unfold _validate_algorithmic
  rw [if_neg hcond, if_neg hd.ne']
  refine ⟨?_, rfl, rfl⟩
  simp only [spec_blended, spec_mhd_score, _modified_hausdorff_distance]
  congr 1
  ring

/-- Witness for C1 at a two-point equator target. -/
theorem C1_blended_score_formula_witness :
    (([⟨0, 0⟩, ⟨1, 0⟩] : List (Coordinate ℝ)) ≠ [] ∧
      ([⟨0, 0⟩] : List (Coordinate ℝ)) ≠ [] ∧
      0 < _compute_diameter haversine_distance_m (fun _ _ _ _ => [])
        ([⟨0, 0⟩, ⟨1, 0⟩] : List (Coordinate ℝ))) ∧
    ((_validate_algorithmic haversine_distance_m (fun _ _ _ => false)
        (fun _ _ _ _ => []) [⟨0, 0⟩, ⟨1, 0⟩] [⟨0, 0⟩] 45).score =
      spec_blended
        (spec_mhd_score haversine_distance_m
          ([⟨0, 0⟩, ⟨1, 0⟩] : List (Coordinate ℝ)) [⟨0, 0⟩]
          (_compute_diameter haversine_distance_m (fun _ _ _ _ => [])
            [⟨0, 0⟩, ⟨1, 0⟩]))
        ((_ordered_sampling_score haversine_distance_m (fun _ _ _ _ => [])
          ([⟨0, 0⟩, ⟨1, 0⟩] : List (Coordinate ℝ)) [⟨0, 0⟩] 50 : ℤ) : ℝ)
        ((_raster_iou_score (fun _ _ _ => false)
          ([⟨0, 0⟩, ⟨1, 0⟩] : List (Coordinate ℝ)) [⟨0, 0⟩]
          128 12 : ℤ) : ℝ) ∧
    ((_validate_algorithmic haversine_distance_m (fun _ _ _ => false)
        (fun _ _ _ _ => []) [⟨0, 0⟩, ⟨1, 0⟩] [⟨0, 0⟩] 45).passed =
      decide (45 ≤ (_validate_algorithmic haversine_distance_m
        (fun _ _ _ => false) (fun _ _ _ _ => [])
        [⟨0, 0⟩, ⟨1, 0⟩] [⟨0, 0⟩] 45).score)) ∧
    VALIDATION_THRESHOLD none = 45) := by
  have hdiam : 0 < _compute_diameter haversine_distance_m
      (fun _ _ _ _ => ([] : List ℕ)) ([⟨0, 0⟩, ⟨1, 0⟩] : List (Coordinate ℝ)) := by
    have h1 : haversine_distance_m (⟨0, 0⟩ : Coordinate ℝ) ⟨1, 0⟩ =
        6371000 * (Real.pi / 180) * |(1 : ℝ) - 0| :=
      haversine_equator 0 1 (by norm_num)
    rw [diameter_pair _ _ _ _ (haversine_nonneg _ _), h1,
      show |(1 : ℝ) - 0| = 1 by norm_num]
    have hp := Real.pi_pos
    positivity
  exact ⟨⟨by simp, by simp, hdiam⟩,
    C1_blended_score_formula _ _ _ _ 45 (by simp) (by simp) hdiam⟩

/-! ## Claim C3 -/

lemma dedupGo_chain (d brg : Coordinate α → Coordinate α → α) (minD : α)
    (pts : List (Coordinate α)) :
    ∀ (rest : List (Coordinate α)) (last : Coordinate α),
      List.IsSuffix rest pts →
      List.Chain' (fun u v => minD ≤ d u v ∨
        (∃ w, List.IsInfix [v, w] pts ∧
          20 < angleChangeOf (brg u v) (brg v w)) ∨
        v = pts.getLastD origin)
        (last :: dedupGo d brg minD last rest) := by
  intro rest
  induction rest with
  | nil =>
    intro last _
    simp only [dedupGo]
    exact List.chain'_singleton last
  | cons p rest ih =>
    intro last hsuf
    cases rest with
    | nil =>
      simp only [dedupGo]
      split
      · rename_i hle
        exact List.chain'_cons.mpr ⟨Or.inl hle, List.chain'_singleton p⟩
      · exact List.chain'_singleton last
    | cons q rest2 =>
      have hsuf2 : List.IsSuffix (q :: rest2) pts := by
        obtain ⟨u, hu⟩ := hsuf
        exact ⟨u ++ [p], by rw [← hu]; simp⟩
      have hinf : List.IsInfix [p, q] pts := by
        obtain ⟨u, hu⟩ := hsuf
        exact ⟨u, rest2, by rw [← hu]; simp⟩
      simp only [dedupGo]
      split
      · rename_i hle
        exact List.chain'_cons.mpr ⟨Or.inl hle, ih p hsuf2⟩
      · split
        · rename_i hang
          exact List.chain'_cons.mpr
            ⟨Or.inr (Or.inl ⟨q, hinf, hang⟩), ih p hsuf2⟩
        · -- dropped point: same last, shorter rest
          exact ih last hsuf2

lemma deduplicate_chain (d brg : Coordinate α → Coordinate α → α)
    (minD : α) (pts : List (Coordinate α)) (hne : pts ≠ []) :
    List.Chain' (fun u v => minD ≤ d u v ∨
      (∃ w, List.IsInfix [v, w] pts ∧
        20 < angleChangeOf (brg u v) (brg v w)) ∨
      v = pts.getLastD origin)
      (deduplicate d brg pts minD) ∧
    (deduplicate d brg pts minD).getD 0 origin = pts.getD 0 origin ∧
    (deduplicate d brg pts minD).getLastD origin = pts.getLastD origin ∧
    deduplicate d brg pts minD ≠ [] := by
  match pts, hne with
  | [p], _ =>
    refine ⟨?_, rfl, rfl, by simp [deduplicate]⟩
    simp only [deduplicate]
    exact List.chain'_singleton p
  | p :: q :: rest, _ =>
    have hchain := dedupGo_chain d brg minD (p :: q :: rest) (q :: rest) p
      ⟨[p], rfl⟩
    simp only [deduplicate]
    split
    · rename_i hne2
      refine ⟨?_, by simp, List.getLastD_concat _ _ _, by simp⟩
      rw [List.chain'_append]
      refine ⟨hchain, List.chain'_singleton _, ?_⟩
      intro x _ y hy
      simp only [List.head?_cons, Option.mem_def, Option.some.injEq] at hy
      exact Or.inr (Or.inr hy.symm)
    · rename_i hne2
      rw [not_not] at hne2
      exact ⟨hchain, by simp, hne2, by simp⟩

/-- C3 (amended): in the deduplicate output, every consecutive pair is at
least 12 m apart, or the later point was kept by the curvature rule
(bearing change above 20 degrees with respect to its input successor), or
the later point is the final input point (which is always re-appended);
the first and last input points are the first and last output points. -/
theorem C3_dedup_min_distance_or_turn (pts : List (Coordinate ℝ))
    (hne : pts ≠ []) :
    List.Chain' (fun u v => 12 ≤ haversine_distance_m u v ∨
      (∃ w, List.IsInfix [v, w] pts ∧
        20 < angleChangeOf (_bearing_deg u v) (_bearing_deg v w)) ∨
      v = pts.getLastD origin)
      (deduplicate haversine_distance_m _bearing_deg pts 12) ∧
    (deduplicate haversine_distance_m _bearing_deg pts 12).getD 0 origin =
      pts.getD 0 origin ∧
    (deduplicate haversine_distance_m _bearing_deg pts 12).getLastD origin =
      pts.getLastD origin ∧
    deduplicate haversine_distance_m _bearing_deg pts 12 ≠ [] :=
  deduplicate_chain haversine_distance_m _bearing_deg 12 pts hne

/-- Witness for the amended C3 at a concrete two-point polyline. -/
theorem C3_dedup_min_distance_or_turn_witness :
    (([⟨0, 0⟩, ⟨1, 0⟩] : List (Coordinate ℝ)) ≠ []) ∧
    (List.Chain' (fun u v => 12 ≤ haversine_distance_m u v ∨
      (∃ w, List.IsInfix [v, w]
          ([⟨0, 0⟩, ⟨1, 0⟩] : List (Coordinate ℝ)) ∧
        20 < angleChangeOf (_bearing_deg u v) (_bearing_deg v w)) ∨
      v = ([⟨0, 0⟩, ⟨1, 0⟩] : List (Coordinate ℝ)).getLastD origin)
      (deduplicate haversine_distance_m _bearing_deg
        ([⟨0, 0⟩, ⟨1, 0⟩] : List (Coordinate ℝ)) 12) ∧
    (deduplicate haversine_distance_m _bearing_deg
        ([⟨0, 0⟩, ⟨1, 0⟩] : List (Coordinate ℝ)) 12).getD 0 origin =
      ([⟨0, 0⟩, ⟨1, 0⟩] : List (Coordinate ℝ)).getD 0 origin ∧
    (deduplicate haversine_distance_m _bearing_deg
        ([⟨0, 0⟩, ⟨1, 0⟩] : List (Coordinate ℝ)) 12).getLastD origin =
      ([⟨0, 0⟩, ⟨1, 0⟩] : List (Coordinate ℝ)).getLastD origin ∧
    deduplicate haversine_distance_m _bearing_deg
      ([⟨0, 0⟩, ⟨1, 0⟩] : List (Coordinate ℝ)) 12 ≠ []) :=
  ⟨by simp, C3_dedup_min_distance_or_turn _ (by simp)⟩

/-- Counterexample to C3 as stated: two equator points about 11.1 m apart
are both kept (the final point is always re-appended), yet the pair is
closer than 12 m and no curvature rule applies to the final point. -/
theorem C3_counterexample : ¬ C3_claim := by
  intro h
  obtain ⟨hchain, _, _⟩ :=
    h [⟨0, 0⟩, ⟨1/10000, 0⟩] (by simp)
  have hdist : haversine_distance_m (⟨0, 0⟩ : Coordinate ℝ) ⟨1/10000, 0⟩ =
      6371000 * (Real.pi / 180) * |(1 : ℝ)/10000 - 0| :=
    haversine_equator 0 (1/10000) (by rw [abs_le]; constructor <;> norm_num)
  have hlt : haversine_distance_m (⟨0, 0⟩ : Coordinate ℝ) ⟨1/10000, 0⟩ < 12 := by
    rw [hdist, show |(1 : ℝ)/10000 - 0| = 1/10000 by norm_num]
    nlinarith [Real.pi_lt_315]
  have hgo : dedupGo haversine_distance_m _bearing_deg 12
      (⟨0, 0⟩ : Coordinate ℝ) [⟨1/10000, 0⟩] = [] := by
    simp only [dedupGo]
    rw [if_neg (not_le.mpr hlt)]
  have hdedup : deduplicate haversine_distance_m _bearing_deg
      ([⟨0, 0⟩, ⟨1/10000, 0⟩] : List (Coordinate ℝ)) 12 =
      [⟨0, 0⟩, ⟨1/10000, 0⟩] := by
    simp only [deduplicate]
    rw [hgo]
    rw [if_pos (by
      simp only [List.getLastD_cons, List.getLastD_nil, ne_eq,
        Coordinate.mk.injEq]
      intro hcontra
      norm_num at hcontra)]
    rfl
  rw [hdedup] at hchain
  obtain ⟨hrel, _⟩ := List.chain'_cons.mp hchain
  rcases hrel with h12 | ⟨w, hinf, _⟩
  · linarith
  · have heq : ([⟨1/10000, 0⟩, w] : List (Coordinate ℝ)) =
        [⟨0, 0⟩, ⟨1/10000, 0⟩] :=
      hinf.sublist.eq_of_length (by simp)
    have hqp : (⟨1/10000, 0⟩ : Coordinate ℝ) = ⟨0, 0⟩ := by
      injection heq
    rw [Coordinate.mk.injEq] at hqp
    norm_num at hqp

/-! ## Claim C5 -/

lemma densifyGo_eq_spec (d : Coordinate α → Coordinate α → α) (maxSeg : α) :
    ∀ (rest : List (Coordinate α)) (a : Coordinate α),
      densifyGo d maxSeg a rest = ((a :: rest).zip rest).flatMap fun ab =>
        (if maxSeg < d ab.1 ab.2 then interpPoints d ab.1 ab.2 maxSeg
         else []) ++ [ab.2] := by
  intro rest
  induction rest with
  | nil => intro a; rfl
  | cons b rest ih =>
    intro a
    simp only [densifyGo, List.zip_cons_cons, List.flatMap_cons, ih b]
    simp

lemma densify_eq_spec (d : Coordinate α → Coordinate α → α)
    (pts : List (Coordinate α)) (maxSeg : α) :
    densify d pts maxSeg = spec_densify d pts maxSeg := by
  match pts with
  | [] => rfl
  | [p] => rfl
  | p :: q :: rest =>
    simp only [densify, spec_densify]
    rw [densifyGo_eq_spec]

lemma densifyGo_sublist (d : Coordinate α → Coordinate α → α) (maxSeg : α) :
    ∀ (rest : List (Coordinate α)) (a : Coordinate α),
      rest.Sublist (densifyGo d maxSeg a rest) := by
  intro rest
  induction rest with
  | nil => intro a; simp [densifyGo]
  | cons b rest ih =>
    intro a
    simp only [densifyGo]
    exact List.Sublist.trans (List.Sublist.cons₂ b (ih b))
      (List.sublist_append_right _ _)

lemma densify_sublist (d : Coordinate α → Coordinate α → α)
    (pts : List (Coordinate α)) (maxSeg : α) :
    pts.Sublist (densify d pts maxSeg) := by
  match pts with
  | [] => exact List.Sublist.refl _
  | [p] => exact List.Sublist.refl _
  | p :: q :: rest =>
    simp only [densify]
    exact List.Sublist.cons₂ p (densifyGo_sublist d maxSeg (q :: rest) p)

lemma chain'_map_range' (f : ℕ → Coordinate α)
    (P : Coordinate α → Coordinate α → Prop)
    (h : ∀ i, P (f i) (f (i + 1))) :
    ∀ (m s : ℕ), List.Chain' P ((List.range' s m).map f) := by
  intro m
  induction m with
  | zero => intro s; simp
  | succ m ih =>
    intro s
    cases m with
    | zero => simp
    | succ m2 =>
      rw [List.range'_succ, List.map_cons]
      rw [List.range'_succ, List.map_cons]
      refine List.chain'_cons.mpr ⟨h s, ?_⟩
      have := ih (s + 1)
      rwa [List.range'_succ, List.map_cons] at this

lemma lerp_zero (a b : Coordinate α) : lerp a b 0 = a := by
  simp [lerp]

lemma lerp_one (a b : Coordinate α) : lerp a b 1 = b := by
  simp only [lerp]
  cases b
  rw [Coordinate.mk.injEq]
  constructor <;> ring_nf <;> rfl

/-- The full expansion of one densified segment as an evenly spaced map. -/
lemma segment_expansion (d : Coordinate α → Coordinate α → α)
    (a b : Coordinate α) (maxSeg : α)
    (hn : 1 ≤ (⌈d a b / maxSeg⌉).toNat) :
    a :: interpPoints d a b maxSeg ++ [b] =
      (List.range' 0 ((⌈d a b / maxSeg⌉).toNat + 1)).map
        (fun j : ℕ => lerp a b ((j : α) / ((⌈d a b / maxSeg⌉).toNat : α))) := by
  set n := (⌈d a b / maxSeg⌉).toNat with hdefn
  have hne : ((n : α)) ≠ 0 := by
    have : (1 : α) ≤ (n : α) := by exact_mod_cast hn
    intro hz
    rw [hz] at this
    linarith
  have h1 : List.range' 0 (n + 1) = 0 :: List.range' 1 n := List.range'_succ 0 n 1
  have h2 : List.range' 1 n = List.range' 1 (n - 1) ++ [n] := by
    have hn' : n = (n - 1) + 1 := by omega
    calc List.range' 1 n = List.range' 1 ((n - 1) + 1) := by rw [← hn']
      _ = List.range' 1 (n - 1) ++ [1 + (n - 1)] := List.range'_1_concat 1 (n - 1)
      _ = List.range' 1 (n - 1) ++ [n] := by rw [show 1 + (n - 1) = n by omega]
  rw [h1, List.map_cons, h2, List.map_append]
  have hz : lerp a b ((0 : ℕ) / (n : α)) = a := by
    rw [show ((0 : ℕ) : α) / (n : α) = 0 by simp, lerp_zero]
  have hb : lerp a b ((n : ℕ) / (n : α)) = b := by
    rw [div_self hne, lerp_one]
  simp only [List.map_cons, List.map_nil] at hz hb ⊢
  rw [hz, hb]
  rfl

/-- Densify produces a chain of segments no longer than maxSeg whenever the
distance function is linear along the coordinate interpolation of each
input segment. -/
lemma densify_chain_le (d : Coordinate α → Coordinate α → α)
    (pts : List (Coordinate α)) (maxSeg : α) (hmax : 0 < maxSeg)
    (hseg : ∀ a b, List.IsInfix [a, b] pts → ∀ j n : ℕ, 0 < n →
      d (lerp a b ((j : α) / (n : α)))
        (lerp a b ((((j + 1) : ℕ) : α) / (n : α))) = d a b / (n : α)) :
    List.Chain' (fun u v => d u v ≤ maxSeg) (densify d pts maxSeg) := by
  have main : ∀ (rest : List (Coordinate α)) (a : Coordinate α),
      List.IsSuffix (a :: rest) pts →
      List.Chain' (fun u v => d u v ≤ maxSeg)
        (a :: densifyGo d maxSeg a rest) := by
    intro rest
    induction rest with
    | nil => intro a _; exact List.chain'_singleton a
    | cons b rest2 ih =>
      intro a hsuf
      have hsuf2 : List.IsSuffix (b :: rest2) pts := by
        obtain ⟨u, hu⟩ := hsuf
        exact ⟨u ++ [a], by rw [← hu]; simp⟩
      have hinf : List.IsInfix [a, b] pts := by
        obtain ⟨u, hu⟩ := hsuf
        exact ⟨u, rest2, by rw [← hu]; simp⟩
      have hsegchain : List.Chain' (fun u v => d u v ≤ maxSeg)
          ((a :: (if maxSeg < d a b then interpPoints d a b maxSeg
            else [])) ++ [b]) := by
        by_cases hlong : maxSeg < d a b
        · rw [if_pos hlong]
          have hratio : 1 < d a b / maxSeg := (one_lt_div hmax).mpr hlong
          have hceil : 1 ≤ (⌈d a b / maxSeg⌉).toNat := by
            have h1 : (1 : ℤ) ≤ ⌈d a b / maxSeg⌉ := by
              have := Int.le_ceil (d a b / maxSeg)
              have h2 : (1 : α) < ⌈d a b / maxSeg⌉ := lt_of_lt_of_le hratio this
              exact_mod_cast h2.le
            omega
          have hid := segment_expansion d a b maxSeg hceil
          rw [show a :: (interpPoints d a b maxSeg) ++ [b] =
            a :: interpPoints d a b maxSeg ++ [b] by simp] at hid
          rw [hid]
          apply chain'_map_range'
          intro j
          set n := (⌈d a b / maxSeg⌉).toNat with hdefn
          have hnpos : 0 < n := hceil
          rw [hseg a b hinf j n hnpos]
          have hcast : (0 : α) < (n : α) := by exact_mod_cast hnpos
          rw [div_le_iff hcast]
          have hle : d a b / maxSeg ≤ ((⌈d a b / maxSeg⌉ : ℤ) : α) :=
            Int.le_ceil _
          have htn : (((⌈d a b / maxSeg⌉).toNat : ℤ) : α) = ((n : ℕ) : α) := by
            norm_cast
          have hnn : (0 : ℤ) ≤ ⌈d a b / maxSeg⌉ :=
            Int.ceil_nonneg (lt_trans one_pos hratio).le
          have heq2 : ((⌈d a b / maxSeg⌉ : ℤ) : α) = ((n : ℕ) : α) := by
            rw [hdefn]
            rw [show ((((⌈d a b / maxSeg⌉).toNat : ℕ) : α)) =
              (((⌈d a b / maxSeg⌉).toNat : ℤ) : α) by norm_cast]
            congr 1
            omega
          rw [heq2] at hle
          calc d a b ≤ maxSeg * (d a b / maxSeg) := by
                rw [mul_div_cancel₀ _ hmax.ne']
            _ ≤ maxSeg * (n : α) := by
                exact mul_le_mul_of_nonneg_left hle hmax.le
        · rw [if_neg hlong]
          exact List.chain'_cons.mpr ⟨not_lt.mp hlong, List.chain'_singleton b⟩
      have hsplit := List.chain'_append.mp (by
        rw [show (a :: (if maxSeg < d a b then interpPoints d a b maxSeg
          else [])) ++ [b] = (a :: (if maxSeg < d a b then
            interpPoints d a b maxSeg else [])) ++ [b] from rfl] at hsegchain
        exact hsegchain)
      obtain ⟨h1, _, hlink⟩ := hsplit
      simp only [densifyGo]
      have hgoal : List.Chain' (fun u v => d u v ≤ maxSeg)
          ((a :: (if maxSeg < d a b then interpPoints d a b maxSeg
            else [])) ++ (b :: densifyGo d maxSeg b rest2)) := by
        rw [List.chain'_append]
        refine ⟨h1, ih b hsuf2, ?_⟩
        intro x hx y hy
        simp only [List.head?_cons, Option.mem_def, Option.some.injEq] at hy
        subst hy
        exact hlink x hx b (by simp)
      simpa using hgoal
  match pts with
  | [] => simp [densify]
  | [p] => simp [densify]
  | p :: q :: rest =>
    simp only [densify]
    exact main (q :: rest) p ⟨[], rfl⟩

lemma haversine_equator' (a b : Coordinate ℝ) (ha : a.lat = 0)
    (hb : b.lat = 0) (h : |b.lng - a.lng| ≤ 180) :
    haversine_distance_m a b =
      6371000 * (Real.pi / 180) * |b.lng - a.lng| := by
  obtain ⟨la, lata⟩ := a
  obtain ⟨lb, latb⟩ := b
  dsimp only at ha hb h ⊢
  subst ha
  subst hb
  exact haversine_equator la lb h

/-- C5 (amended): the densify output is the segment-by-segment rebuild with
evenly spaced interpolation points (originals preserved in order, for every
input); and whenever all points lie on the equator with consecutive
longitude gaps at most 180 degrees, every consecutive output pair is at
most 80 m apart.  (Off the equator the 80 m bound can fail; see the
counterexample.) -/
theorem C5_densify_structure_and_equator_bound (pts : List (Coordinate ℝ))
    (hlat : ∀ p ∈ pts, p.lat = 0)
    (hlng : List.Chain' (fun a b => |b.lng - a.lng| ≤ 180) pts) :
    densify haversine_distance_m pts 80 =
      spec_densify haversine_distance_m pts 80 ∧
    pts.Sublist (densify haversine_distance_m pts 80) ∧
    List.Chain' (fun u v => haversine_distance_m u v ≤ 80)
      (densify haversine_distance_m pts 80) := by
  refine ⟨densify_eq_spec _ _ _, densify_sublist _ _ _, ?_⟩
  apply densify_chain_le haversine_distance_m pts 80 (by norm_num)
  intro a b hinf j n hn
  have ha : a.lat = 0 := hlat a (hinf.subset (by simp))
  have hb : b.lat = 0 := hlat b (hinf.subset (by simp))
  have hab : |b.lng - a.lng| ≤ 180 := by
    have hchain := List.Chain'.infix hlng hinf
    exact (List.chain'_cons.mp hchain).1
  have hnpos : (0 : ℝ) < (n : ℝ) := by exact_mod_cast hn
  have hlat1 : (lerp a b ((j : ℝ) / (n : ℝ))).lat = 0 := by
    simp [lerp, ha, hb]
  have hlat2 : (lerp a b ((((j + 1) : ℕ) : ℝ) / (n : ℝ))).lat = 0 := by
    simp [lerp, ha, hb]
  have hlngdiff : (lerp a b ((((j + 1) : ℕ) : ℝ) / (n : ℝ))).lng -
      (lerp a b ((j : ℝ) / (n : ℝ))).lng = (b.lng - a.lng) / (n : ℝ) := by
    simp only [lerp]
    push_cast
    field_simp
    ring
  have habs : |(lerp a b ((((j + 1) : ℕ) : ℝ) / (n : ℝ))).lng -
      (lerp a b ((j : ℝ) / (n : ℝ))).lng| = |b.lng - a.lng| / (n : ℝ) := by
    rw [hlngdiff, abs_div, abs_of_pos hnpos]
  have hsmall : |(lerp a b ((((j + 1) : ℕ) : ℝ) / (n : ℝ))).lng -
      (lerp a b ((j : ℝ) / (n : ℝ))).lng| ≤ 180 := by
    rw [habs]
    have h1n : (1 : ℝ) ≤ (n : ℝ) := by exact_mod_cast hn
    have : |b.lng - a.lng| / (n : ℝ) ≤ |b.lng - a.lng| / 1 := by
      apply div_le_div_of_nonneg_left (abs_nonneg _) ?_ h1n
      norm_num
    simp at this
    linarith
  rw [haversine_equator' _ _ hlat1 hlat2 hsmall, habs,
    haversine_equator' a b ha hb hab]
  ring

/-- Witness for the amended C5 at a two-point equator polyline. -/
theorem C5_densify_structure_and_equator_bound_witness :
    ((∀ p ∈ ([⟨0, 0⟩, ⟨1, 0⟩] : List (Coordinate ℝ)), p.lat = 0) ∧
      List.Chain' (fun a b : Coordinate ℝ => |b.lng - a.lng| ≤ 180)
        ([⟨0, 0⟩, ⟨1, 0⟩] : List (Coordinate ℝ))) ∧
    (densify haversine_distance_m ([⟨0, 0⟩, ⟨1, 0⟩] : List (Coordinate ℝ))
        80 =
      spec_densify haversine_distance_m
        ([⟨0, 0⟩, ⟨1, 0⟩] : List (Coordinate ℝ)) 80 ∧
    ([⟨0, 0⟩, ⟨1, 0⟩] : List (Coordinate ℝ)).Sublist
      (densify haversine_distance_m
        ([⟨0, 0⟩, ⟨1, 0⟩] : List (Coordinate ℝ)) 80) ∧
    List.Chain' (fun u v => haversine_distance_m u v ≤ 80)
      (densify haversine_distance_m
        ([⟨0, 0⟩, ⟨1, 0⟩] : List (Coordinate ℝ)) 80)) :=
 by
  have hlat : ∀ p ∈ ([⟨0, 0⟩, ⟨1, 0⟩] : List (Coordinate ℝ)), p.lat = 0 := by
    intro p hp
    rcases List.mem_cons.mp hp with rfl | hp
    · rfl
    · rcases List.mem_cons.mp hp with rfl | hp
      · rfl
      · exact absurd hp (List.not_mem_nil p)
  have hlng : List.Chain' (fun a b : Coordinate ℝ => |b.lng - a.lng| ≤ 180)
      ([⟨0, 0⟩, ⟨1, 0⟩] : List (Coordinate ℝ)) := by
    refine List.chain'_cons.mpr ⟨?_, List.chain'_singleton _⟩
    norm_num
  exact ⟨⟨hlat, hlng⟩,
    C5_densify_structure_and_equator_bound _ hlat hlng⟩

lemma self_le_arcsin {y : ℝ} (h0 : 0 ≤ y) (h1 : y ≤ 1) :
    y ≤ Real.arcsin y := by
  have hs : Real.sin y ≤ y := Real.sin_le h0
  calc y = Real.arcsin (Real.sin y) :=
      (Real.arcsin_sin (by linarith [Real.pi_gt_three])
        (by linarith [Real.pi_gt_three])).symm
    _ ≤ Real.arcsin y := Real.monotone_arcsin hs

lemma atan2_sqrt_one_sub_sq {y : ℝ} (h0 : 0 ≤ y) (h1 : y < 1) :
    atan2 y (Real.sqrt (1 - y ^ 2)) = Real.arcsin y := by
  have hx : 0 < Real.sqrt (1 - y ^ 2) := Real.sqrt_pos.mpr (by nlinarith)
  unfold atan2
  rw [if_pos hx]
  exact (Real.arcsin_eq_arctan ⟨by linarith, h1⟩).symm

/-- At latitude 60 degrees the haversine distance has the closed form
2 R arcsin(|sin(dlambda / 2)| / 2). -/
lemma haversine_lat60 (x y : ℝ) :
    haversine_distance_m ⟨x, 60⟩ ⟨y, 60⟩ =
      6371000 * 2 * Real.arcsin (|Real.sin (radians (y - x) / 2)| / 2) := by
  simp only [haversine_distance_m]
  have h60 : radians 60 = Real.pi / 3 := by unfold radians; ring
  have key : Real.sin (radians ((60 : ℝ) - 60) / 2) ^ 2 +
      Real.cos (radians 60) * Real.cos (radians 60) *
        Real.sin (radians (y - x) / 2) ^ 2 =
      (|Real.sin (radians (y - x) / 2)| / 2) ^ 2 := by
    rw [h60, Real.cos_pi_div_three,
      show radians ((60 : ℝ) - 60) = 0 by unfold radians; ring,
      show (0 : ℝ) / 2 = 0 by ring, Real.sin_zero]
    rw [div_pow, sq_abs]
    ring
  rw [key]
  have hy0 : 0 ≤ |Real.sin (radians (y - x) / 2)| / 2 := by positivity
  have hy1 : |Real.sin (radians (y - x) / 2)| / 2 < 1 := by
    have hb : |Real.sin (radians (y - x) / 2)| ≤ 1 :=
      abs_le.mpr ⟨Real.neg_one_le_sin _, Real.sin_le_one _⟩
    linarith
  rw [Real.sqrt_sq hy0, atan2_sqrt_one_sub_sq hy0 hy1]

/-- A densified sub-segment of the 180-degree parallel chord at latitude 60
is longer than 80 m whenever the piece count is in the range the code
produces. -/
lemma lat60_piece_too_long (n : ℕ) (hlb : (83000 : ℝ) ≤ (n : ℝ))
    (hub : (n : ℝ) ≤ 83620) :
    80 < 6371000 * 2 *
      Real.arcsin (|Real.sin (radians (180 / (n : ℝ)) / 2)| / 2) := by
  have hnpos : (0 : ℝ) < (n : ℝ) := by linarith
  have ht_eq : radians (180 / (n : ℝ)) / 2 = Real.pi / (2 * (n : ℝ)) := by
    unfold radians
    field_simp
    ring
  rw [ht_eq]
  have htpos : 0 < Real.pi / (2 * (n : ℝ)) := by
    have := Real.pi_pos
    positivity
  have ht_ub : Real.pi / (2 * (n : ℝ)) ≤ 1 / 50000 := by
    rw [div_le_div_iff (by positivity) (by norm_num)]
    nlinarith [Real.pi_lt_d2, hlb]
  have ht_lb : 1 / 60000 ≤ Real.pi / (2 * (n : ℝ)) := by
    rw [div_le_div_iff (by norm_num) (by positivity)]
    nlinarith [Real.pi_gt_three, hub]
  set t := Real.pi / (2 * (n : ℝ)) with hdeft
  have ht1 : t ≤ 1 := by linarith
  have hsin := Real.sin_gt_sub_cube htpos ht1
  have ht3 : t ^ 3 ≤ t * (1 / 50000) ^ 2 := by
    have h1 : t ^ 2 ≤ (1 / 50000 : ℝ) ^ 2 := by nlinarith [htpos.le, ht_ub]
    calc t ^ 3 = t * t ^ 2 := by ring
      _ ≤ t * (1 / 50000) ^ 2 := mul_le_mul_of_nonneg_left h1 htpos.le
  have hsinpos : 0 < Real.sin t := by nlinarith
  rw [abs_of_pos hsinpos]
  have harc : Real.sin t / 2 ≤ Real.arcsin (Real.sin t / 2) := by
    apply self_le_arcsin
    · linarith
    · have := Real.sin_le_one t
      linarith
  nlinarith [harc, hsin, ht3, ht_lb]

/-- Counterexample to C5 as stated: for the 180-degree segment at latitude
60, the coordinate interpolation follows the parallel, which is about 50
percent longer than the great circle, so the densified pieces exceed
80 m. -/
theorem C5_counterexample : ¬ C5_claim := by
  intro h
  obtain ⟨hchain, -, -⟩ := h [⟨-90, 60⟩, ⟨90, 60⟩]
  have hD : haversine_distance_m (⟨-90, 60⟩ : Coordinate ℝ) ⟨90, 60⟩ =
      6371000 * Real.pi / 3 := by
    rw [haversine_lat60 (-90) 90,
      show radians ((90 : ℝ) - -90) / 2 = Real.pi / 2 by unfold radians; ring,
      Real.sin_pi_div_two, abs_one]
    have harc : Real.arcsin ((1 : ℝ) / 2) = Real.pi / 6 := by
      rw [show (1 : ℝ) / 2 = Real.sin (Real.pi / 6) from
        (Real.sin_pi_div_six).symm]
      exact Real.arcsin_sin (by linarith [Real.pi_pos])
        (by linarith [Real.pi_pos])
    rw [harc]
    ring
  have hcond : (80 : ℝ) <
      haversine_distance_m (⟨-90, 60⟩ : Coordinate ℝ) ⟨90, 60⟩ := by
    rw [hD]
    nlinarith [Real.pi_gt_three]
  have hceil_nonneg : (0 : ℤ) ≤ ⌈(6371000 : ℝ) * Real.pi / 3 / 80⌉ :=
    Int.ceil_nonneg (by positivity)
  have hcast : (((⌈(6371000 : ℝ) * Real.pi / 3 / 80⌉).toNat : ℕ) : ℝ) =
      ((⌈(6371000 : ℝ) * Real.pi / 3 / 80⌉ : ℤ) : ℝ) := by
    exact_mod_cast Int.toNat_of_nonneg hceil_nonneg
  have hNlb : (83000 : ℝ) ≤
      (((⌈(6371000 : ℝ) * Real.pi / 3 / 80⌉).toNat : ℕ) : ℝ) := by
    rw [hcast]
    have h1 := Int.le_ceil ((6371000 : ℝ) * Real.pi / 3 / 80)
    nlinarith [Real.pi_gt_d2]
  have hNub : (((⌈(6371000 : ℝ) * Real.pi / 3 / 80⌉).toNat : ℕ) : ℝ) ≤
      83620 := by
    have h1 := Int.ceil_lt_add_one ((6371000 : ℝ) * Real.pi / 3 / 80)
    have h4 : (((⌈(6371000 : ℝ) * Real.pi / 3 / 80⌉).toNat : ℕ) : ℝ) <
        83621 := by
      rw [hcast]
      nlinarith [Real.pi_lt_d2]
    have h5 : ((⌈(6371000 : ℝ) * Real.pi / 3 / 80⌉).toNat : ℕ) < 83621 := by
      exact_mod_cast h4
    have h6 : ((⌈(6371000 : ℝ) * Real.pi / 3 / 80⌉).toNat : ℕ) ≤ 83620 := by
      omega
    exact_mod_cast h6
  have hN2 : 2 ≤ ((⌈(6371000 : ℝ) * Real.pi / 3 / 80⌉).toNat : ℕ) := by
    have h7 : (2 : ℝ) ≤
        (((⌈(6371000 : ℝ) * Real.pi / 3 / 80⌉).toNat : ℕ) : ℝ) := by
      linarith
    exact_mod_cast h7
  have hdens : densify haversine_distance_m
      ([⟨-90, 60⟩, ⟨90, 60⟩] : List (Coordinate ℝ)) 80 =
      ⟨-90, 60⟩ :: (interpPoints haversine_distance_m ⟨-90, 60⟩ ⟨90, 60⟩ 80 ++
        [(⟨90, 60⟩ : Coordinate ℝ)]) := by
    simp only [densify, densifyGo, if_pos hcond]
  have hinterp : interpPoints haversine_distance_m
      (⟨-90, 60⟩ : Coordinate ℝ) ⟨90, 60⟩ 80 =
      lerp (⟨-90, 60⟩ : Coordinate ℝ) ⟨90, 60⟩
        (((1 : ℕ) : ℝ) / (((⌈(6371000 : ℝ) * Real.pi / 3 / 80⌉).toNat : ℕ) : ℝ)) ::
        (List.range' 2 (((⌈(6371000 : ℝ) * Real.pi / 3 / 80⌉).toNat : ℕ) - 2)).map
          (fun j : ℕ => lerp (⟨-90, 60⟩ : Coordinate ℝ) ⟨90, 60⟩
            ((j : ℝ) / (((⌈(6371000 : ℝ) * Real.pi / 3 / 80⌉).toNat : ℕ) : ℝ))) := by
    unfold interpPoints
    rw [hD]
    dsimp only
    rw [show (⌈(6371000 : ℝ) * Real.pi / 3 / 80⌉).toNat - 1 =
      ((⌈(6371000 : ℝ) * Real.pi / 3 / 80⌉).toNat - 2) + 1 from by omega,
      List.range'_succ, List.map_cons]
  rw [hdens, hinterp] at hchain
  obtain ⟨hrel, -⟩ := List.chain'_cons.mp hchain
  have hf1 : lerp (⟨-90, 60⟩ : Coordinate ℝ) ⟨90, 60⟩
      (((1 : ℕ) : ℝ) / (((⌈(6371000 : ℝ) * Real.pi / 3 / 80⌉).toNat : ℕ) : ℝ)) =
      ⟨-90 + 180 / (((⌈(6371000 : ℝ) * Real.pi / 3 / 80⌉).toNat : ℕ) : ℝ),
        60⟩ := by
    simp only [lerp, Nat.cast_one]
    rw [Coordinate.mk.injEq]
    constructor
    · ring
    · ring
  rw [hf1] at hrel
  have hsub : haversine_distance_m (⟨-90, 60⟩ : Coordinate ℝ)
      ⟨-90 + 180 / (((⌈(6371000 : ℝ) * Real.pi / 3 / 80⌉).toNat : ℕ) : ℝ),
        60⟩ =
      6371000 * 2 * Real.arcsin (|Real.sin (radians
        (180 / (((⌈(6371000 : ℝ) * Real.pi / 3 / 80⌉).toNat : ℕ) : ℝ)) / 2)| /
          2) := by
    rw [haversine_lat60 (-90)
      (-90 + 180 / (((⌈(6371000 : ℝ) * Real.pi / 3 / 80⌉).toNat : ℕ) : ℝ)),
      show (-90 + 180 / (((⌈(6371000 : ℝ) * Real.pi / 3 / 80⌉).toNat : ℕ) : ℝ)) -
        (-90) = 180 / (((⌈(6371000 : ℝ) * Real.pi / 3 / 80⌉).toNat : ℕ) : ℝ)
        from by ring]
  rw [hsub] at hrel
  exact absurd hrel (not_le.mpr (lat60_piece_too_long _ hNlb hNub))

/-! ## Rounding and score-range lemmas -/

lemma pyRound_intCast (k : ℤ) : pyRound ((k : α)) = k := by
  unfold pyRound
  rw [Int.floor_intCast]
  norm_num

lemma floor_le_pyRound (x : α) : ⌊x⌋ ≤ pyRound x := by
  unfold pyRound
  split_ifs <;> omega

lemma pyRound_le_floor_add_one (x : α) : pyRound x ≤ ⌊x⌋ + 1 := by
  unfold pyRound
  split_ifs <;> omega

lemma pyRound_mono {x y : α} (h : x ≤ y) : pyRound x ≤ pyRound y := by
  have hff : ⌊x⌋ ≤ ⌊y⌋ := Int.floor_le_floor h
  rcases lt_or_eq_of_le hff with hf | hf
  · calc pyRound x ≤ ⌊x⌋ + 1 := pyRound_le_floor_add_one x
      _ ≤ ⌊y⌋ := by omega
      _ ≤ pyRound y := floor_le_pyRound y
  · have hfc : ((⌊x⌋ : α)) = ((⌊y⌋ : α)) := by exact_mod_cast hf
    have hfr : x - ⌊x⌋ ≤ y - ⌊y⌋ := by
      rw [← hfc]
      linarith
    by_cases hx1 : x - ⌊x⌋ < 1/2
    · unfold pyRound
      rw [if_pos hx1]
      have := floor_le_pyRound y
      unfold pyRound at this
      omega
    · by_cases hy1 : y - ⌊y⌋ < 1/2
      · exact absurd (lt_of_le_of_lt hfr hy1) hx1
      · by_cases hx2 : 1/2 < x - ⌊x⌋
        · have hy2 : 1/2 < y - ⌊y⌋ := lt_of_lt_of_le hx2 hfr
          unfold pyRound
          rw [if_neg hx1, if_pos hx2, if_neg hy1, if_pos hy2]
          omega
        · have hxh : x - ⌊x⌋ = 1/2 := le_antisymm (not_lt.mp hx2) (not_lt.mp hx1)
          by_cases hy2 : 1/2 < y - ⌊y⌋
          · unfold pyRound
            rw [if_neg hx1, if_neg hx2, if_neg hy1, if_pos hy2]
            split_ifs <;> omega
          · have hyh : y - ⌊y⌋ = 1/2 :=
              le_antisymm (not_lt.mp hy2) (not_lt.mp hy1)
            unfold pyRound
            rw [if_neg hx1, if_neg hx2, if_neg hy1, if_neg hy2, hf]

lemma pyRound_ratio_bounds (i u : ℕ) (hu : u ≠ 0) (hle : i ≤ u) :
    0 ≤ pyRound (((i : α) / (u : α)) * 100) ∧
    pyRound (((i : α) / (u : α)) * 100) ≤ 100 := by
  have hupos : (0 : α) < (u : α) := by
    have : 0 < u := Nat.pos_of_ne_zero hu
    exact_mod_cast this
  have hr0 : (0 : α) ≤ ((i : α) / (u : α)) * 100 := by positivity
  have hr1 : ((i : α) / (u : α)) * 100 ≤ 100 := by
    have : (i : α) / (u : α) ≤ 1 := by
      rw [div_le_one hupos]
      exact_mod_cast hle
    nlinarith
  constructor
  · rw [show (0 : ℤ) = pyRound ((0 : ℤ) : α) from (pyRound_intCast 0).symm]
    apply pyRound_mono
    simpa using hr0
  · rw [show (100 : ℤ) = pyRound ((100 : ℤ) : α) from (pyRound_intCast 100).symm]
    apply pyRound_mono
    push_cast
    exact hr1

lemma filter_length_mono {β : Type} (l : List β) (p q : β → Bool)
    (h : ∀ x, p x = true → q x = true) :
    (l.filter p).length ≤ (l.filter q).length := by
  induction l with
  | nil => simp
  | cons a l ih =>
    by_cases hp : p a = true
    · rw [List.filter_cons_of_pos hp, List.filter_cons_of_pos (h a hp)]
      simpa using ih
    · rw [List.filter_cons_of_neg (by simpa using hp)]
      by_cases hq : q a = true
      · rw [List.filter_cons_of_pos hq]
        exact le_trans ih (by simp)
      · rw [List.filter_cons_of_neg (by simpa using hq)]
        exact ih

lemma pixelCount_mono (size : ℕ) (f g : ℤ × ℤ → Bool)
    (h : ∀ p, f p = true → g p = true) :
    pixelCount size f ≤ pixelCount size g := by
  unfold pixelCount
  apply List.sum_le_sum
  intro i _
  exact filter_length_mono _ _ _ (fun x hx => h _ hx)

/-- The raster IoU score always lies in [0, 100], for every renderer. -/
lemma iou_score_bounds (dl : List (ℤ × ℤ) → ℕ → ℤ × ℤ → Bool)
    (t a : List (Coordinate α)) (size w : ℕ) :
    0 ≤ _raster_iou_score dl t a size w ∧
    _raster_iou_score dl t a size w ≤ 100 := by
  unfold _raster_iou_score
  dsimp only
  split
  · norm_num
  · rename_i hu
    refine pyRound_ratio_bounds _ _ hu ?_
    apply pixelCount_mono
    intro p hp
    rcases (Bool.and_eq_true _ _).mp hp with ⟨h1, _⟩
    exact (Bool.or_eq_true _ _).mpr (Or.inl h1)

/-! ## Claim C6 -/

lemma foldl_min_mem : ∀ (l : List α) (x : α), l.foldl min x ∈ x :: l := by
  intro l
  induction l with
  | nil => intro x; simp
  | cons a l ih =>
    intro x
    show l.foldl min (min x a) ∈ x :: a :: l
    rcases List.mem_cons.mp (ih (min x a)) with h | h
    · rw [h]
      rcases min_choice x a with hc | hc <;> rw [hc]
      · exact List.mem_cons_self x _
      · exact List.mem_cons_of_mem _ (List.mem_cons_self a l)
    · exact List.mem_cons_of_mem _ (List.mem_cons_of_mem _ h)

lemma listMin_mem {xs : List α} (h : xs ≠ []) : listMin xs ∈ xs := by
  cases xs with
  | nil => exact absurd rfl h
  | cons a l =>
    have := foldl_min_mem l a
    exact this

lemma getD_zero_of_all_zero {l : List α} (hz : ∀ x ∈ l, x = 0) (i : ℕ) :
    l.getD i 0 = 0 := by
  rcases lt_or_le i l.length with h | h
  · rw [List.getD_eq_getElem _ _ h]
    exact hz _ (List.getElem_mem h)
  · rw [List.getD_eq_default _ _ h]

lemma percentile_of_all_zero {xs : List α} (hz : ∀ x ∈ xs, x = 0) (q : α) :
    percentile xs q = 0 := by
  unfold percentile
  dsimp only
  have hs : ∀ x ∈ xs.insertionSort (fun a b => a ≤ b), x = 0 := by
    intro x hx
    exact hz x ((List.perm_insertionSort _ xs).mem_iff.mp hx)
  rw [getD_zero_of_all_zero hs, getD_zero_of_all_zero hs]
  ring

lemma zip_self_map {β γ : Type} (f : β × β → γ) :
    ∀ l : List β, (l.zip l).map f = l.map fun x => f (x, x) := by
  intro l
  induction l with
  | nil => rfl
  | cons a l ih => simp [List.zip_cons_cons, ih]

lemma resample_ne_nil (d : Coordinate α → Coordinate α → α)
    (hd : ∀ a b, 0 ≤ d a b) (pts : List (Coordinate α)) (n : ℕ)
    (h2 : 2 ≤ pts.length) (hn : 2 ≤ n) :
    _resample_curve d pts n ≠ [] := by
  have hcond : ¬(pts.length < 2 ∨ n < 2) := by omega
  have hne : pts ≠ [] := by
    intro h
    rw [h] at h2
    simp at h2
  have htot : (cumlenList d pts).getLastD 0 = arcTotal d pts := rfl
  simp only [_resample_curve]
  rw [if_neg hcond]
  split
  · simp
    omega
  · rename_i h0
    rw [Ne, List.filterMap_eq_nil_iff]
    intro hall
    have h00 := hall 0 (List.mem_range.mpr (by omega))
    have hpos : 0 < arcTotal d pts :=
      lt_of_le_of_ne (arcTotal_nonneg _ hd pts) (Ne.symm (htot ▸ h0))
    have hlen : 2 ≤ (cumlenList d pts).length := by
      rw [cumlenList_length _ _ hne]
      exact h2
    have hgd : (cumlenList d pts).getLastD 0 * ((0 : ℕ) : α) / ((n : α) - 1) ≤
        (cumlenList d pts).getD ((cumlenList d pts).length - 1) 0 := by
      rw [← getLastD_eq_getD _ _ (by
        intro hnil
        rw [hnil] at hlen
        simp at hlen)]
      rw [Nat.cast_zero, mul_zero, zero_div]
      rw [htot]
      exact hpos.le
    obtain ⟨i, hi⟩ := findSeg_isSome (cumlenList d pts)
      ((cumlenList d pts).getLastD 0 * ((0 : ℕ) : α) / ((n : α) - 1)) hlen hgd
    rw [hi] at h00
    simp at h00

/-- C6 (amended): a point set of positive diameter used as both target and
actual scores at least 90 and passes at the default threshold 45. -/
theorem C6_identical_inputs_pass
    (drawLine : List (ℤ × ℤ) → ℕ → ℤ × ℤ → Bool)
    (sampler : ℕ → ℕ → ℕ → ℕ → List ℕ) (t : List (Coordinate ℝ))
    (hd : 0 < _compute_diameter haversine_distance_m sampler t) :
    90 ≤ (_validate_algorithmic haversine_distance_m drawLine sampler t t
      45).score ∧
    (_validate_algorithmic haversine_distance_m drawLine sampler t t
      45).passed = true := by
  have h2 : 2 ≤ t.length := by
    by_contra hlt
    push_neg at hlt
    have : _compute_diameter haversine_distance_m sampler t = 0 := by
      unfold _compute_diameter
      rw [if_pos hlt]
    rw [this] at hd
    exact lt_irrefl 0 hd
  have hne : t ≠ [] := by
    intro h
    rw [h] at h2
    simp at h2
  have hcond : ¬(t = [] ∨ t = []) := by simp [hne]
  -- the modified Hausdorff distance of t with itself is 0
  have hdir : ∀ x ∈ directed_distances haversine_distance_m t t, x = 0 := by
    intro x hx
    obtain ⟨s, hs, rfl⟩ := List.mem_map.mp hx
    have hne2 : (t.map fun p => haversine_distance_m s p) ≠ [] := by
      simp [hne]
    have hmem := listMin_mem hne2
    obtain ⟨p, _, hp⟩ := List.mem_map.mp hmem
    have hnn : 0 ≤ listMin (t.map fun p => haversine_distance_m s p) := by
      rw [← hp]
      exact haversine_nonneg _ _
    have hmemss : haversine_distance_m s s ∈
        t.map fun p => haversine_distance_m s p :=
      List.mem_map_of_mem _ hs
    have hle : listMin (t.map fun p => haversine_distance_m s p) ≤ 0 := by
      have h3 := listMin_le hmemss
      rwa [haversine_self] at h3
    linarith
  have hmhd : _modified_hausdorff_distance haversine_distance_m t t = 0 := by
    unfold _modified_hausdorff_distance
    apply percentile_of_all_zero
    intro x hx
    rcases List.mem_append.mp hx with hx | hx
    · exact hdir x hx
    · exact hdir x hx
  -- the ordered sampling score of t with itself is 100
  have hos : _ordered_sampling_score haversine_distance_m sampler t t 50 =
      100 := by
    unfold _ordered_sampling_score
    rw [if_neg (by
      simp only [or_self]
      exact resample_ne_nil haversine_distance_m haversine_nonneg t 50 h2
        (by norm_num))]
    have hzip : ((_resample_curve haversine_distance_m t 50).zip
        (_resample_curve haversine_distance_m t 50)).map
          (fun pr => haversine_distance_m pr.1 pr.2) =
        (_resample_curve haversine_distance_m t 50).map
          (fun x => haversine_distance_m x x) :=
      zip_self_map _ _
    rw [hzip]
    dsimp only
    have hsum : ((_resample_curve haversine_distance_m t 50).map
        (fun x => haversine_distance_m x x)).sum = 0 := by
      apply List.sum_eq_zero
      intro x hx
      obtain ⟨p, _, rfl⟩ := List.mem_map.mp hx
      exact haversine_self p
    rw [hsum, zero_div, if_neg hd.ne']
    rw [zero_div, min_eq_left (by norm_num), sub_zero, one_mul]
    rw [show ((100 : ℝ)) = (((100 : ℤ)) : ℝ) by norm_num]
    exact pyRound_intCast 100
  have hiou := iou_score_bounds drawLine t t 128 12
  unfold _validate_algorithmic
  rw [if_neg hcond]
  dsimp only
  rw [if_neg hd.ne', hmhd, hos]
  rw [zero_div, min_eq_left (by norm_num), sub_zero, one_mul]
  dsimp only
  have hblend : (90 : ℝ) ≤ 55/100 * 100 + 35/100 * ((100 : ℤ) : ℝ) +
      10/100 * ((_raster_iou_score drawLine t t 128 12 : ℤ) : ℝ) := by
    have h1 : (0 : ℝ) ≤ ((_raster_iou_score drawLine t t 128 12 : ℤ) : ℝ) := by
      exact_mod_cast hiou.1
    push_cast
    linarith
  have hscore : (90 : ℤ) ≤ pyRound ((55 : ℝ)/100 * 100 +
      35/100 * ((100 : ℤ) : ℝ) +
      10/100 * ((_raster_iou_score drawLine t t 128 12 : ℤ) : ℝ)) := by
    calc (90 : ℤ) = pyRound ((90 : ℤ) : ℝ) := (pyRound_intCast 90).symm
      _ ≤ _ := pyRound_mono (by exact_mod_cast hblend)
  refine ⟨hscore, ?_⟩
  simp only [decide_eq_true_eq]
  omega

/-- Witness for the amended C6 at a two-point equator set. -/
theorem C6_identical_inputs_pass_witness :
    (0 < _compute_diameter haversine_distance_m (fun _ _ _ _ => [])
      ([⟨0, 0⟩, ⟨1, 0⟩] : List (Coordinate ℝ))) ∧
    (90 ≤ (_validate_algorithmic haversine_distance_m (fun _ _ _ => false)
      (fun _ _ _ _ => []) ([⟨0, 0⟩, ⟨1, 0⟩] : List (Coordinate ℝ))
      [⟨0, 0⟩, ⟨1, 0⟩] 45).score ∧
    (_validate_algorithmic haversine_distance_m (fun _ _ _ => false)
      (fun _ _ _ _ => []) ([⟨0, 0⟩, ⟨1, 0⟩] : List (Coordinate ℝ))
      [⟨0, 0⟩, ⟨1, 0⟩] 45).passed = true) := by
  have hdiam : 0 < _compute_diameter haversine_distance_m
      (fun _ _ _ _ => ([] : List ℕ))
      ([⟨0, 0⟩, ⟨1, 0⟩] : List (Coordinate ℝ)) := by
    have h1 : haversine_distance_m (⟨0, 0⟩ : Coordinate ℝ) ⟨1, 0⟩ =
        6371000 * (Real.pi / 180) * |(1 : ℝ) - 0| :=
      haversine_equator 0 1 (by norm_num)
    rw [diameter_pair _ _ _ _ (haversine_nonneg _ _), h1,
      show |(1 : ℝ) - 0| = 1 by norm_num]
    have hp := Real.pi_pos
    positivity
  exact ⟨hdiam, C6_identical_inputs_pass _ _ _ hdiam⟩

/-- Counterexample to C6 as stated: a single repeated point has zero
diameter, so the scorer short-circuits to 0 and fails even though target
and actual are identical. -/
theorem C6_counterexample : ¬ C6_claim := by
  intro h
  obtain ⟨hscore, -⟩ := h (fun _ _ _ => false) (fun _ _ _ _ => [])
    [⟨0, 0⟩]
  have hdia : _compute_diameter haversine_distance_m (fun _ _ _ _ => [])
      ([⟨0, 0⟩] : List (Coordinate ℝ)) = 0 := by
    unfold _compute_diameter
    rw [if_pos (by simp)]
  have hval : (_validate_algorithmic haversine_distance_m
      (fun _ _ _ => false) (fun _ _ _ _ => [])
      ([⟨0, 0⟩] : List (Coordinate ℝ)) [⟨0, 0⟩] 45).score = 0 := by
    unfold _validate_algorithmic
    rw [if_neg (by simp)]
    simp [hdia]
  rw [hval] at hscore
  omega

/-! ## Pointwise-domination machinery for the percentile and the mean -/

lemma forall₂_le_of_mem_imp {β : Type} (l : List β) (f g : β → α)
    (h : ∀ x ∈ l, f x ≤ g x) :
    List.Forall₂ (fun a b : α => a ≤ b) (l.map f) (l.map g) := by
  induction l with
  | nil => exact List.Forall₂.nil
  | cons a l ih =>
    exact List.Forall₂.cons (h a (List.mem_cons_self a l))
      (ih fun x hx => h x (List.mem_cons_of_mem _ hx))

lemma forall₂_le_append {l₁ l₂ l₃ l₄ : List α}
    (h : List.Forall₂ (fun a b : α => a ≤ b) l₁ l₂)
    (h' : List.Forall₂ (fun a b : α => a ≤ b) l₃ l₄) :
    List.Forall₂ (fun a b : α => a ≤ b) (l₁ ++ l₃) (l₂ ++ l₄) := by
  induction h with
  | nil => exact h'
  | cons hab _ ih => exact List.Forall₂.cons hab ih

lemma forall₂_sum_le {l l' : List α}
    (h : List.Forall₂ (fun a b : α => a ≤ b) l l') : l.sum ≤ l'.sum := by
  induction h with
  | nil => exact le_refl 0
  | cons hab _ ih =>
    simp only [List.sum_cons]
    exact add_le_add hab ih

lemma countP_le_of_forall₂ {l l' : List α}
    (h : List.Forall₂ (fun a b : α => a ≤ b) l l') (c : α) :
    l'.countP (fun x => decide (x ≤ c)) ≤ l.countP (fun x => decide (x ≤ c)) := by
  induction h with
  | nil => exact le_refl 0
  | @cons a b l₁ l₂ hab htl ih =>
    rw [List.countP_cons, List.countP_cons]
    by_cases hb : b ≤ c
    · have ha : a ≤ c := le_trans hab hb
      rw [if_pos (by simpa using hb), if_pos (by simpa using ha)]
      omega
    · rw [if_neg (by simpa using hb)]
      split <;> omega

lemma sorted_getD_le_of_lt_countP {l : List α} {c : α}
    (hs : l.Sorted (fun a b : α => a ≤ b)) :
    ∀ j : ℕ, j < l.countP (fun x => decide (x ≤ c)) → l.getD j 0 ≤ c := by
  induction l with
  | nil => intro j hj; simp at hj
  | cons a t ih =>
    intro j hj
    obtain ⟨hhead, htail⟩ := List.sorted_cons.mp hs
    by_cases hac : a ≤ c
    · cases j with
      | zero => exact hac
      | succ j =>
        rw [List.countP_cons, if_pos (by simpa using hac)] at hj
        exact ih htail j (by omega)
    · exfalso
      have hcount : t.countP (fun x => decide (x ≤ c)) = 0 := by
        rw [List.countP_eq_zero]
        intro x hx
        simp only [decide_eq_true_eq]
        intro hxc
        exact hac (le_trans (hhead x hx) hxc)
      rw [List.countP_cons, if_neg (by simpa using hac), hcount] at hj
      omega

lemma lt_countP_of_sorted_getD {l : List α}
    (hs : l.Sorted (fun a b : α => a ≤ b)) :
    ∀ j : ℕ, j < l.length →
      j < l.countP (fun x => decide (x ≤ l.getD j 0)) := by
  induction l with
  | nil => intro j hj; simp at hj
  | cons a t ih =>
    intro j hj
    obtain ⟨hhead, htail⟩ := List.sorted_cons.mp hs
    cases j with
    | zero =>
      rw [List.countP_cons, if_pos (by simp)]
      omega
    | succ j =>
      have hjt : j < t.length := by
        simpa using hj
      have hmem : t.getD j 0 ∈ t := by
        rw [List.getD_eq_getElem _ _ hjt]
        exact List.getElem_mem hjt
      have hd : (a :: t).getD (j + 1) 0 = t.getD j 0 := rfl
      rw [hd, List.countP_cons, if_pos (by simpa using hhead _ hmem)]
      have := ih htail j hjt
      omega

lemma sorted_getD_mono {l l' : List α}
    (h : List.Forall₂ (fun a b : α => a ≤ b) l l') (j : ℕ) :
    (l.insertionSort (fun a b => a ≤ b)).getD j 0 ≤
    (l'.insertionSort (fun a b => a ≤ b)).getD j 0 := by
  have hlen : l.length = l'.length := h.length_eq
  by_cases hj : j < l'.length
  · have hsort' : (l'.insertionSort (fun a b => a ≤ b)).Sorted
        (fun a b : α => a ≤ b) := List.sorted_insertionSort _ l'
    have hsort : (l.insertionSort (fun a b => a ≤ b)).Sorted
        (fun a b : α => a ≤ b) := List.sorted_insertionSort _ l
    have hlen' : j < (l'.insertionSort (fun a b => a ≤ b)).length := by
      rw [List.length_insertionSort]
      exact hj
    have h1 := lt_countP_of_sorted_getD hsort' j hlen'
    have h2 : (l'.insertionSort (fun a b => a ≤ b)).countP
        (fun x => decide (x ≤ (l'.insertionSort (fun a b => a ≤ b)).getD j 0)) =
        l'.countP
        (fun x => decide (x ≤ (l'.insertionSort (fun a b => a ≤ b)).getD j 0)) :=
      (List.perm_insertionSort _ l').countP_eq _
    have h3 := countP_le_of_forall₂ h
      ((l'.insertionSort (fun a b => a ≤ b)).getD j 0)
    have h4 : l.countP
        (fun x => decide (x ≤ (l'.insertionSort (fun a b => a ≤ b)).getD j 0)) =
        (l.insertionSort (fun a b => a ≤ b)).countP
        (fun x => decide (x ≤ (l'.insertionSort (fun a b => a ≤ b)).getD j 0)) :=
      ((List.perm_insertionSort _ l).countP_eq _).symm
    exact sorted_getD_le_of_lt_countP hsort j (by omega)
  · have hj1 : (l.insertionSort (fun a b => a ≤ b)).length ≤ j := by
      rw [List.length_insertionSort, hlen]
      omega
    have hj2 : (l'.insertionSort (fun a b => a ≤ b)).length ≤ j := by
      rw [List.length_insertionSort]
      omega
    rw [List.getD_eq_default _ _ hj1, List.getD_eq_default _ _ hj2]

lemma percentile_mono {l l' : List α} (q : α)
    (h : List.Forall₂ (fun a b : α => a ≤ b) l l') :
    percentile l q ≤ percentile l' q := by
  unfold percentile
  dsimp only
  rw [← h.length_eq]
  have hg0 : (0 : α) ≤ q / 100 * ((l.length : α) - 1) -
      ⌊q / 100 * ((l.length : α) - 1)⌋ := by
    rw [Int.self_sub_floor]
    exact Int.fract_nonneg _
  have hg1 : q / 100 * ((l.length : α) - 1) -
      ⌊q / 100 * ((l.length : α) - 1)⌋ < 1 := by
    rw [Int.self_sub_floor]
    exact Int.fract_lt_one _
  have hi := sorted_getD_mono h (⌊q / 100 * ((l.length : α) - 1)⌋).toNat
  have hi1 := sorted_getD_mono h ((⌊q / 100 * ((l.length : α) - 1)⌋).toNat + 1)
  nlinarith [hi, hi1, hg0, hg1]

/-! ## Rounding shift -/

lemma pyRound_add_int (x : α) (k : ℤ) (hk : Even k) :
    pyRound (x + (k : α)) = pyRound x + k := by
  unfold pyRound
  rw [Int.floor_add_int]
  have hfr : x + (k : α) - ((⌊x⌋ + k : ℤ) : α) = x - ⌊x⌋ := by
    push_cast
    ring
  rw [hfr]
  have he : Even (⌊x⌋ + k) ↔ Even ⌊x⌋ :=
    ⟨fun h2 => (Int.even_add.mp h2).mpr hk,
     fun h2 => Int.even_add.mpr (iff_of_true h2 hk)⟩
  split_ifs with h1 h2 h3 h4 h5 <;>
    first
      | omega
      | exact absurd (he.mp h3) h4
      | exact absurd (he.mpr h5) h3

lemma pyRound_eval (x : α) (m : ℤ) (h1 : (m : α) ≤ x) (h2 : x < (m : α) + 1/2) :
    pyRound x = m := by
  have hfl : ⌊x⌋ = m := Int.floor_eq_iff.mpr ⟨h1, by push_cast; linarith⟩
  unfold pyRound
  rw [hfl, if_pos (by linarith)]

/-! ## Concrete evaluations of the resampler and the percentile -/

lemma resample_two (d : Coordinate α → Coordinate α → α) (p q : Coordinate α)
    (n : ℕ) (hn : 2 ≤ n) (hpq : 0 < d p q) :
    _resample_curve d [p, q] n =
      (List.range n).map (fun k : ℕ => lerp p q ((k : α) / ((n : α) - 1))) := by
  have hcl : cumlenList d [p, q] = [0, d p q] := by
    simp [cumlenList, cumlenFrom]
  have hcond : ¬(([p, q] : List (Coordinate α)).length < 2 ∨ n < 2) := by
    simp only [List.length_cons, List.length_singleton, not_or, not_lt]
    omega
  have hn1 : (0 : α) < (n : α) - 1 := by
    have h2n : (2 : α) ≤ (n : α) := by exact_mod_cast hn
    linarith
  unfold _resample_curve
  rw [if_neg hcond]
  dsimp only
  rw [hcl]
  have htot : ([0, d p q] : List α).getLastD 0 = d p q := rfl
  rw [htot, if_neg hpq.ne']
  apply filterMap_eq_map_of_some
  intro k hk
  have hkn : k < n := List.mem_range.mp hk
  have hkle : (k : α) ≤ (n : α) - 1 := by
    have hk1 : (k : α) + 1 ≤ (n : α) := by exact_mod_cast hkn
    linarith
  have htarget : d p q * (k : α) / ((n : α) - 1) ≤ d p q := by
    rw [div_le_iff₀ hn1]
    calc d p q * (k : α) ≤ d p q * ((n : α) - 1) :=
          mul_le_mul_of_nonneg_left hkle hpq.le
      _ = d p q * ((n : α) - 1) := rfl
  have hfind : findSeg [0, d p q] (d p q * (k : α) / ((n : α) - 1)) =
      some 1 := by
    unfold findSeg
    rw [show ([0, d p q] : List α).length = 2 from rfl,
      show List.range 2 = [0, 1] from rfl,
      List.find?_cons_of_neg _ (by simp),
      List.find?_cons_of_pos _ (by simp [htarget])]
  rw [hfind, Option.map_some']
  unfold segPoint
  dsimp only
  rw [show (1 : ℕ) - 1 = 0 from rfl]
  have hgd1 : ([0, d p q] : List α).getD 1 0 = d p q := rfl
  have hgd0 : ([0, d p q] : List α).getD 0 0 = 0 := rfl
  rw [hgd1, hgd0, sub_zero, sub_zero, if_neg hpq.ne']
  have hfrac : d p q * (k : α) / ((n : α) - 1) / d p q =
      (k : α) / ((n : α) - 1) := by
    rw [mul_div_assoc, mul_div_cancel_left₀ _ hpq.ne']
  rw [hfrac]
  rfl

lemma resample_const_pair (d : Coordinate α → Coordinate α → α)
    (c : Coordinate α) (n : ℕ) (hn : 2 ≤ n) (h0 : d c c = 0) :
    _resample_curve d [c, c] n = List.replicate n c := by
  have hcl : cumlenList d [c, c] = [0, 0] := by
    simp [cumlenList, cumlenFrom, h0]
  unfold _resample_curve
  rw [if_neg (by
    simp only [List.length_cons, List.length_singleton, not_or, not_lt]
    omega)]
  dsimp only
  rw [hcl]
  rw [show ([0, 0] : List α).getLastD 0 = 0 from rfl, if_pos rfl]
  rfl

lemma zip_map_replicate {β γ δ : Type} (l : List β) (f : β → γ) (x : δ) :
    (l.map f).zip (List.replicate l.length x) = l.map fun y => (f y, x) := by
  induction l with
  | nil => rfl
  | cons a t ih => simp [List.replicate_succ, ih]

lemma rasterize_route_false (coords : List (Coordinate α))
    (bbox : BoundingBox α) (size w : ℕ) :
    rasterize_route (fun _ _ _ => false) coords bbox size w =
      fun _ => false := by
  unfold rasterize_route
  dsimp only
  split <;> rfl

lemma iou_score_false (t a : List (Coordinate α)) (size w : ℕ) :
    _raster_iou_score (fun _ _ _ => false) t a size w = 0 := by
  unfold _raster_iou_score
  dsimp only
  rw [rasterize_route_false, rasterize_route_false]
  simp [pixelCount]

lemma getD_four_two (x0 x1 x2 x3 : α) :
    ([x0, x1, x2, x3] : List α).getD 2 0 = x2 := rfl

lemma getD_four_three (x0 x1 x2 x3 : α) :
    ([x0, x1, x2, x3] : List α).getD 3 0 = x3 := rfl

lemma percentile90_four (xs s : List α) (hlen : xs.length = 4)
    (hsort : xs.insertionSort (fun a b => a ≤ b) = s) :
    percentile xs 90 = s.getD 2 0 + 7/10 * (s.getD 3 0 - s.getD 2 0) := by
  unfold percentile
  dsimp only
  rw [hsort, hlen]
  have hpos : (90 : α)/100 * (((4 : ℕ) : α) - 1) = 27/10 := by norm_num
  rw [hpos]
  have hfl : ⌊(27/10 : α)⌋ = 2 := Int.floor_eq_iff.mpr (by norm_num)
  rw [hfl, show Int.toNat 2 = 2 from rfl]
  norm_num

lemma sum_range50_abs0 :
    ((List.range 50).map (fun k : ℕ => |(0 : ℝ) - (k : ℝ)/49|)).sum = 25 := by
  rw [show ((List.range 50).map (fun k : ℕ => |(0 : ℝ) - (k : ℝ)/49|)).sum =
    ∑ i ∈ Finset.range 50, |(0 : ℝ) - (i : ℝ)/49| from rfl]
  have h1 : ∀ k ∈ Finset.range 50, |(0 : ℝ) - (k : ℝ)/49| = (k : ℝ)/49 := by
    intro k _
    rw [zero_sub, abs_neg, abs_of_nonneg (by positivity)]
  have hg : ∑ i ∈ Finset.range 50, ((i : ℝ)) = 1225 := by
    rw [← Nat.cast_sum, Finset.sum_range_id]
    norm_num
  rw [Finset.sum_congr rfl h1, ← Finset.sum_div, hg]
  norm_num

lemma sum_range50_abs_half :
    ((List.range 50).map (fun k : ℕ => |(1/2 : ℝ) - (k : ℝ)/49|)).sum =
      625/49 := by
  rw [show ((List.range 50).map (fun k : ℕ => |(1/2 : ℝ) - (k : ℝ)/49|)).sum =
    ∑ i ∈ Finset.range 50, |(1/2 : ℝ) - (i : ℝ)/49| from rfl]
  have hsplit : Finset.range 50 = Finset.range 25 ∪ Finset.Ico (25 : ℕ) 50 := by
    rw [Finset.range_eq_Ico]
    exact (Finset.Ico_union_Ico_eq_Ico (by norm_num) (by norm_num)).symm
  have hdisj : Disjoint (Finset.range 25) (Finset.Ico (25 : ℕ) 50) := by
    rw [Finset.range_eq_Ico]
    exact Finset.Ico_disjoint_Ico_consecutive 0 25 50
  rw [hsplit, Finset.sum_union hdisj]
  have hg25 : ∑ i ∈ Finset.range 25, ((i : ℝ)) = 300 := by
    rw [← Nat.cast_sum, Finset.sum_range_id]
    norm_num
  have h1 : ∀ k ∈ Finset.range 25,
      |(1/2 : ℝ) - (k : ℝ)/49| = 1/2 - (k : ℝ)/49 := by
    intro k hk
    have hk' : k ≤ 24 := by
      have := Finset.mem_range.mp hk
      omega
    have hkr : (k : ℝ) ≤ 24 := by exact_mod_cast hk'
    rw [abs_of_nonneg (by nlinarith)]
  have h2 : ∀ k ∈ Finset.Ico (25 : ℕ) 50,
      |(1/2 : ℝ) - (k : ℝ)/49| = (k : ℝ)/49 - 1/2 := by
    intro k hk
    have hk' : 25 ≤ k := (Finset.mem_Ico.mp hk).1
    have hkr : (25 : ℝ) ≤ (k : ℝ) := by exact_mod_cast hk'
    rw [abs_of_nonpos (by nlinarith), neg_sub]
  rw [Finset.sum_congr rfl h1, Finset.sum_congr rfl h2]
  have hg2 : ∑ k ∈ Finset.Ico (25 : ℕ) 50, ((k : ℝ)) = 925 := by
    have hs : ∑ k ∈ Finset.range 25, ((k : ℝ)) +
        ∑ k ∈ Finset.Ico (25 : ℕ) 50, ((k : ℝ)) =
        ∑ k ∈ Finset.range 50, ((k : ℝ)) := by
      rw [hsplit, Finset.sum_union hdisj]
    have hg50 : ∑ i ∈ Finset.range 50, ((i : ℝ)) = 1225 := by
      rw [← Nat.cast_sum, Finset.sum_range_id]
      norm_num
    rw [hg25, hg50] at hs
    linarith
  have e1 : ∑ k ∈ Finset.range 25, ((1 : ℝ)/2 - (k : ℝ)/49) =
      25/2 - 300/49 := by
    rw [Finset.sum_sub_distrib, Finset.sum_const, Finset.card_range,
      ← Finset.sum_div, hg25]
    norm_num
  have e2 : ∑ k ∈ Finset.Ico (25 : ℕ) 50, ((k : ℝ)/49 - 1/2) =
      925/49 - 25/2 := by
    rw [Finset.sum_sub_distrib, Finset.sum_const, Nat.card_Ico,
      ← Finset.sum_div, hg2]
    norm_num
  rw [e1, e2]
  norm_num

/-! ## A concrete two-point target with a collapsed two-point actual -/

lemma hv_eq_pos : 0 < haversine_distance_m (⟨0, 0⟩ : Coordinate ℝ) ⟨1, 0⟩ := by
  rw [haversine_equator 0 1 (by norm_num)]
  have hp := Real.pi_pos
  rw [show |(1 : ℝ) - 0| = 1 by norm_num]
  positivity

lemma tR_ex : _resample_curve haversine_distance_m
    ([⟨0, 0⟩, ⟨1, 0⟩] : List (Coordinate ℝ)) 50 =
    (List.range 50).map (fun k : ℕ => (⟨(k : ℝ)/49, 0⟩ : Coordinate ℝ)) := by
  rw [resample_two haversine_distance_m _ _ 50 (by norm_num) hv_eq_pos]
  apply List.map_congr_left
  intro k _
  simp only [lerp]
  rw [Coordinate.mk.injEq]
  norm_num

lemma hv_lerp_pt (k : ℕ) (c : ℝ) (hk : k < 50) (hc0 : -1 ≤ c) (hc1 : c ≤ 1) :
    haversine_distance_m (⟨(k : ℝ)/49, 0⟩ : Coordinate ℝ) ⟨c, 0⟩ =
      6371000 * (Real.pi / 180) * |c - (k : ℝ)/49| := by
  apply haversine_equator
  have hk49 : (k : ℝ) ≤ 49 := by
    have : k ≤ 49 := by omega
    exact_mod_cast this
  have h0 : (0 : ℝ) ≤ (k : ℝ)/49 := by positivity
  have h1 : (k : ℝ)/49 ≤ 1 := by
    rw [div_le_one (by norm_num)]
    exact hk49
  rw [abs_le]
  constructor <;> linarith

lemma mhd_ex_zero : _modified_hausdorff_distance haversine_distance_m
    ([⟨0, 0⟩, ⟨1, 0⟩] : List (Coordinate ℝ)) [⟨0, 0⟩, ⟨0, 0⟩] =
    7/10 * (6371000 * (Real.pi / 180)) := by
  have hK : (0 : ℝ) < 6371000 * (Real.pi / 180) := by
    have hp := Real.pi_pos
    positivity
  have h00 : haversine_distance_m (⟨0, 0⟩ : Coordinate ℝ) ⟨0, 0⟩ = 0 :=
    haversine_self _
  have h10 : haversine_distance_m (⟨1, 0⟩ : Coordinate ℝ) ⟨0, 0⟩ =
      6371000 * (Real.pi / 180) := by
    rw [haversine_equator 1 0 (by norm_num)]
    norm_num
  have h01 : haversine_distance_m (⟨0, 0⟩ : Coordinate ℝ) ⟨1, 0⟩ =
      6371000 * (Real.pi / 180) := by
    rw [haversine_equator 0 1 (by norm_num)]
    norm_num
  unfold _modified_hausdorff_distance directed_distances
  simp only [List.map_cons, List.map_nil, List.cons_append, List.nil_append]
  simp only [show ∀ x y : ℝ, listMin [x, y] = min x y from fun x y => rfl]
  rw [h00, h01, h10, min_self, min_self, min_eq_left hK.le]
  rw [percentile90_four
    [0, 6371000 * (Real.pi / 180), 0, 0]
    [0, 0, 0, 6371000 * (Real.pi / 180)] rfl
    (by simp [List.insertionSort, List.orderedInsert, hK.not_le]),
    getD_four_two, getD_four_three]
  ring

lemma mhd_ex_half : _modified_hausdorff_distance haversine_distance_m
    ([⟨0, 0⟩, ⟨1, 0⟩] : List (Coordinate ℝ)) [⟨1/2, 0⟩, ⟨1/2, 0⟩] =
    1/2 * (6371000 * (Real.pi / 180)) := by
  have habs : |(1:ℝ)/2| = 1/2 := abs_of_nonneg (by norm_num)
  have h0h : haversine_distance_m (⟨0, 0⟩ : Coordinate ℝ) ⟨1/2, 0⟩ =
      6371000 * (Real.pi / 180) * (1/2) := by
    rw [haversine_equator 0 (1/2) (by rw [sub_zero, habs]; norm_num)]
    rw [sub_zero, habs]
  have h1h : haversine_distance_m (⟨1, 0⟩ : Coordinate ℝ) ⟨1/2, 0⟩ =
      6371000 * (Real.pi / 180) * (1/2) := by
    have habs2 : |(1:ℝ)/2 - 1| = 1/2 := by
      rw [abs_of_nonpos (by norm_num)]
      norm_num
    rw [haversine_equator 1 (1/2) (by rw [habs2]; norm_num), habs2]
  have hh0 : haversine_distance_m (⟨1/2, 0⟩ : Coordinate ℝ) ⟨0, 0⟩ =
      6371000 * (Real.pi / 180) * (1/2) := by
    have habs2 : |(0:ℝ) - 1/2| = 1/2 := by
      rw [abs_of_nonpos (by norm_num)]
      norm_num
    rw [haversine_equator (1/2) 0 (by rw [habs2]; norm_num), habs2]
  have hh1 : haversine_distance_m (⟨1/2, 0⟩ : Coordinate ℝ) ⟨1, 0⟩ =
      6371000 * (Real.pi / 180) * (1/2) := by
    have habs2 : |(1:ℝ) - 1/2| = 1/2 := by
      rw [abs_of_nonneg (by norm_num)]
      norm_num
    rw [haversine_equator (1/2) 1 (by rw [habs2]; norm_num), habs2]
  unfold _modified_hausdorff_distance directed_distances
  simp only [List.map_cons, List.map_nil, List.cons_append, List.nil_append]
  simp only [show ∀ x y : ℝ, listMin [x, y] = min x y from fun x y => rfl]
  rw [h0h, h1h, hh0, hh1, min_self]
  rw [percentile90_four
    [6371000 * (Real.pi / 180) * (1/2), 6371000 * (Real.pi / 180) * (1/2),
     6371000 * (Real.pi / 180) * (1/2), 6371000 * (Real.pi / 180) * (1/2)]
    [6371000 * (Real.pi / 180) * (1/2), 6371000 * (Real.pi / 180) * (1/2),
     6371000 * (Real.pi / 180) * (1/2), 6371000 * (Real.pi / 180) * (1/2)] rfl
    (by simp [List.insertionSort, List.orderedInsert]),
    getD_four_two, getD_four_three]
  ring

lemma dists_ex (c : ℝ) (hc0 : -1 ≤ c) (hc1 : c ≤ 1) (hcc :
    haversine_distance_m (⟨c, 0⟩ : Coordinate ℝ) ⟨c, 0⟩ = 0) :
    ((_resample_curve haversine_distance_m
        ([⟨0, 0⟩, ⟨1, 0⟩] : List (Coordinate ℝ)) 50).zip
      (_resample_curve haversine_distance_m
        ([⟨c, 0⟩, ⟨c, 0⟩] : List (Coordinate ℝ)) 50)).map
      (fun pr => haversine_distance_m pr.1 pr.2) =
    (List.range 50).map (fun k : ℕ =>
      6371000 * (Real.pi / 180) * |c - (k : ℝ)/49|) := by
  rw [tR_ex, resample_const_pair haversine_distance_m _ 50 (by norm_num) hcc]
  have hrep : List.replicate 50 (⟨c, 0⟩ : Coordinate ℝ) =
      List.replicate (List.range 50).length ⟨c, 0⟩ := by
    rw [List.length_range]
  rw [hrep, zip_map_replicate, List.map_map]
  apply List.map_congr_left
  intro k hk
  simp only [Function.comp]
  exact hv_lerp_pt k c (List.mem_range.mp hk) hc0 hc1

lemma diam_ex (smp : ℕ → ℕ → ℕ → ℕ → List ℕ) :
    _compute_diameter haversine_distance_m smp
      ([⟨0, 0⟩, ⟨1, 0⟩] : List (Coordinate ℝ)) =
      6371000 * (Real.pi / 180) := by
  rw [diameter_pair _ _ _ _ (haversine_nonneg _ _),
    haversine_equator 0 1 (by norm_num)]
  norm_num

lemma os_ex_zero (smp : ℕ → ℕ → ℕ → ℕ → List ℕ) :
    _ordered_sampling_score haversine_distance_m smp
      ([⟨0, 0⟩, ⟨1, 0⟩] : List (Coordinate ℝ)) [⟨0, 0⟩, ⟨0, 0⟩] 50 = 50 := by
  have hK : (0 : ℝ) < 6371000 * (Real.pi / 180) := by
    have hp := Real.pi_pos
    positivity
  have hd := dists_ex 0 (by norm_num) (by norm_num) (haversine_self _)
  unfold _ordered_sampling_score
  dsimp only
  rw [if_neg (by
    rw [tR_ex, resample_const_pair haversine_distance_m _ 50 (by norm_num)
      (haversine_self _)]
    simp)]
  rw [hd, List.sum_map_mul_left, sum_range50_abs0, List.length_map,
    List.length_range, diam_ex, if_neg hK.ne']
  have hnorm : 6371000 * (Real.pi / 180) * 25 / ((50 : ℕ) : ℝ) /
      (6371000 * (Real.pi / 180)) = 1/2 := by
    rw [show (((50 : ℕ)) : ℝ) = 50 by norm_num]
    field_simp
    ring
  rw [hnorm, min_eq_left (by norm_num)]
  rw [show ((1 : ℝ) - 1/2) * 100 = 34 - 34 + 50 by norm_num]
  exact pyRound_eval _ 50 (by norm_num) (by norm_num)

lemma os_ex_half (smp : ℕ → ℕ → ℕ → ℕ → List ℕ) :
    _ordered_sampling_score haversine_distance_m smp
      ([⟨0, 0⟩, ⟨1, 0⟩] : List (Coordinate ℝ)) [⟨1/2, 0⟩, ⟨1/2, 0⟩] 50 =
      74 := by
  have hK : (0 : ℝ) < 6371000 * (Real.pi / 180) := by
    have hp := Real.pi_pos
    positivity
  have hd := dists_ex (1/2) (by norm_num) (by norm_num) (haversine_self _)
  unfold _ordered_sampling_score
  dsimp only
  rw [if_neg (by
    rw [tR_ex, resample_const_pair haversine_distance_m _ 50 (by norm_num)
      (haversine_self _)]
    simp)]
  rw [hd, List.sum_map_mul_left, sum_range50_abs_half, List.length_map,
    List.length_range, diam_ex, if_neg hK.ne']
  have hnorm : 6371000 * (Real.pi / 180) * (625/49) / ((50 : ℕ) : ℝ) /
      (6371000 * (Real.pi / 180)) = 25/98 := by
    rw [show (((50 : ℕ)) : ℝ) = 50 by norm_num]
    field_simp
    ring
  rw [hnorm, min_eq_left (by norm_num)]
  rw [show ((1 : ℝ) - 25/98) * 100 = 3650/49 by norm_num]
  exact pyRound_eval _ 74 (by norm_num) (by norm_num)

lemma score_ex_zero (smp : ℕ → ℕ → ℕ → ℕ → List ℕ) :
    (_validate_algorithmic haversine_distance_m (fun _ _ _ => false) smp
      ([⟨0, 0⟩, ⟨1, 0⟩] : List (Coordinate ℝ)) [⟨0, 0⟩, ⟨0, 0⟩] 45).score =
      34 := by
  have hK : (0 : ℝ) < 6371000 * (Real.pi / 180) := by
    have hp := Real.pi_pos
    positivity
  unfold _validate_algorithmic
  rw [if_neg (by simp)]
  dsimp only
  rw [diam_ex, if_neg hK.ne', mhd_ex_zero, os_ex_zero, iou_score_false]
  dsimp only
  have hmin : 7/10 * (6371000 * (Real.pi / 180)) /
      (6371000 * (Real.pi / 180)) = 7/10 := by
    field_simp
    ring
  rw [hmin, min_eq_left (by norm_num)]
  rw [show (55 : ℝ)/100 * ((1 - 7/10) * 100) + 35/100 * ((50 : ℤ) : ℝ) +
      10/100 * ((0 : ℤ) : ℝ) = 34 by push_cast; norm_num]
  exact pyRound_eval _ 34 (by norm_num) (by norm_num)

lemma score_ex_half (smp : ℕ → ℕ → ℕ → ℕ → List ℕ) :
    (_validate_algorithmic haversine_distance_m (fun _ _ _ => false) smp
      ([⟨0, 0⟩, ⟨1, 0⟩] : List (Coordinate ℝ)) [⟨1/2, 0⟩, ⟨1/2, 0⟩]
      45).score = 53 := by
  have hK : (0 : ℝ) < 6371000 * (Real.pi / 180) := by
    have hp := Real.pi_pos
    positivity
  unfold _validate_algorithmic
  rw [if_neg (by simp)]
  dsimp only
  rw [diam_ex, if_neg hK.ne', mhd_ex_half, os_ex_half, iou_score_false]
  dsimp only
  have hmin : 1/2 * (6371000 * (Real.pi / 180)) /
      (6371000 * (Real.pi / 180)) = 1/2 := by
    field_simp
    ring
  rw [hmin, min_eq_left (by norm_num)]
  rw [show (55 : ℝ)/100 * ((1 - 1/2) * 100) + 35/100 * ((74 : ℤ) : ℝ) +
      10/100 * ((0 : ℤ) : ℝ) = 267/5 by push_cast; norm_num]
  exact pyRound_eval _ 53 (by norm_num) (by norm_num)

lemma diameter_nonneg (smp : ℕ → ℕ → ℕ → ℕ → List ℕ)
    (pts : List (Coordinate ℝ)) :
    0 ≤ _compute_diameter haversine_distance_m smp pts := by
  unfold _compute_diameter
  split_ifs
  · exact le_refl 0
  · exact le_foldl_max_init _ _
  · exact le_foldl_max_init _ _

/-- C7 (amended): if every shifted actual point is at least as far from the
target set at shift u as at shift s, the target points are at least as far
from the shifted actual set, and the resampled index-pair distances are
pointwise dominated, then the larger shift scores at most 10 points more
(the slack coming only from the 10-percent raster IoU component). -/
theorem C7_score_shift_bounded
    (drawLine : List (ℤ × ℤ) → ℕ → ℤ × ℤ → Bool)
    (sampler : ℕ → ℕ → ℕ → ℕ → List ℕ) (th : ℤ)
    (t a : List (Coordinate ℝ)) (v : ℝ × ℝ) (s u : ℝ)
    (hmoveA : ∀ p ∈ a, setDist haversine_distance_m t (shiftBy p s v) ≤
      setDist haversine_distance_m t (shiftBy p u v))
    (hmoveT : ∀ q ∈ t,
      setDist haversine_distance_m (a.map fun p => shiftBy p s v) q ≤
      setDist haversine_distance_m (a.map fun p => shiftBy p u v) q)
    (hres : List.Forall₂ (fun x y : ℝ => x ≤ y)
      (((_resample_curve haversine_distance_m t 50).zip
        (_resample_curve haversine_distance_m
          (a.map fun p => shiftBy p s v) 50)).map
        (fun pr => haversine_distance_m pr.1 pr.2))
      (((_resample_curve haversine_distance_m t 50).zip
        (_resample_curve haversine_distance_m
          (a.map fun p => shiftBy p u v) 50)).map
        (fun pr => haversine_distance_m pr.1 pr.2)))
    (hlen : (_resample_curve haversine_distance_m
        (a.map fun p => shiftBy p s v) 50).length =
      (_resample_curve haversine_distance_m
        (a.map fun p => shiftBy p u v) 50).length) :
    (_validate_algorithmic haversine_distance_m drawLine sampler t
      (a.map fun p => shiftBy p u v) th).score ≤
    (_validate_algorithmic haversine_distance_m drawLine sampler t
      (a.map fun p => shiftBy p s v) th).score + 10 := by
  by_cases hta : t = [] ∨ (a.map fun p => shiftBy p s v) = []
  · have hta' : t = [] ∨ (a.map fun p => shiftBy p u v) = [] := by
      rcases hta with h | h
      · exact Or.inl h
      · exact Or.inr (by
          rw [List.map_eq_nil_iff] at h ⊢
          exact h)
    unfold _validate_algorithmic
    rw [if_pos hta, if_pos hta']
    dsimp only
    omega
  · have hta' : ¬(t = [] ∨ (a.map fun p => shiftBy p u v) = []) := by
      rw [not_or] at hta ⊢
      refine ⟨hta.1, fun hnil => hta.2 ?_⟩
      rw [List.map_eq_nil_iff] at hnil
      rw [List.map_eq_nil_iff]
      exact hnil
    unfold _validate_algorithmic
    rw [if_neg hta, if_neg hta']
    dsimp only
    by_cases hdm : _compute_diameter haversine_distance_m sampler t = 0
    · rw [if_pos hdm, if_pos hdm]
      omega
    · rw [if_neg hdm, if_neg hdm]
      dsimp only
      have hdn := diameter_nonneg sampler t
      have hdpos : 0 < _compute_diameter haversine_distance_m sampler t :=
        lt_of_le_of_ne hdn (Ne.symm hdm)
      have hFa : List.Forall₂ (fun x y : ℝ => x ≤ y)
          (directed_distances haversine_distance_m t
            (a.map fun p => shiftBy p s v))
          (directed_distances haversine_distance_m t
            (a.map fun p => shiftBy p u v)) := by
        unfold directed_distances
        exact forall₂_le_of_mem_imp t _ _ hmoveT
      have hFb : List.Forall₂ (fun x y : ℝ => x ≤ y)
          (directed_distances haversine_distance_m
            (a.map fun p => shiftBy p s v) t)
          (directed_distances haversine_distance_m
            (a.map fun p => shiftBy p u v) t) := by
        unfold directed_distances
        rw [List.map_map, List.map_map]
        exact forall₂_le_of_mem_imp a _ _ hmoveA
      have hmhd : _modified_hausdorff_distance haversine_distance_m t
          (a.map fun p => shiftBy p s v) ≤
          _modified_hausdorff_distance haversine_distance_m t
          (a.map fun p => shiftBy p u v) := by
        unfold _modified_hausdorff_distance
        exact percentile_mono 90 (forall₂_le_append hFa hFb)
      have hos : _ordered_sampling_score haversine_distance_m sampler t
          (a.map fun p => shiftBy p u v) 50 ≤
          _ordered_sampling_score haversine_distance_m sampler t
          (a.map fun p => shiftBy p s v) 50 := by
        unfold _ordered_sampling_score
        dsimp only
        by_cases htr : _resample_curve haversine_distance_m t 50 = []
        · rw [if_pos (Or.inl htr), if_pos (Or.inl htr)]
        · by_cases has0 : _resample_curve haversine_distance_m
              (a.map fun p => shiftBy p s v) 50 = []
          · have hau0 : _resample_curve haversine_distance_m
                (a.map fun p => shiftBy p u v) 50 = [] :=
              List.eq_nil_of_length_eq_zero (by
                rw [← hlen, has0]
                rfl)
            rw [if_pos (Or.inr hau0), if_pos (Or.inr has0)]
          · have hau0 : _resample_curve haversine_distance_m
                (a.map fun p => shiftBy p u v) 50 ≠ [] := by
              intro hnil
              exact has0 (List.eq_nil_of_length_eq_zero (by
                rw [hlen, hnil]
                rfl))
            rw [if_neg (not_or.mpr ⟨htr, hau0⟩),
              if_neg (not_or.mpr ⟨htr, has0⟩)]
            rw [if_neg hdm, if_neg hdm]
            apply pyRound_mono
            have hsum := forall₂_sum_le hres
            have hlen2 := hres.length_eq
            have hmean :
                (((_resample_curve haversine_distance_m t 50).zip
                  (_resample_curve haversine_distance_m
                    (a.map fun p => shiftBy p s v) 50)).map
                  (fun pr => haversine_distance_m pr.1 pr.2)).sum /
                ((((_resample_curve haversine_distance_m t 50).zip
                  (_resample_curve haversine_distance_m
                    (a.map fun p => shiftBy p s v) 50)).map
                  (fun pr => haversine_distance_m pr.1 pr.2)).length : ℝ) ≤
                (((_resample_curve haversine_distance_m t 50).zip
                  (_resample_curve haversine_distance_m
                    (a.map fun p => shiftBy p u v) 50)).map
                  (fun pr => haversine_distance_m pr.1 pr.2)).sum /
                ((((_resample_curve haversine_distance_m t 50).zip
                  (_resample_curve haversine_distance_m
                    (a.map fun p => shiftBy p u v) 50)).map
                  (fun pr => haversine_distance_m pr.1 pr.2)).length : ℝ) := by
              rw [hlen2, div_eq_mul_inv, div_eq_mul_inv]
              exact mul_le_mul_of_nonneg_right hsum
                (inv_nonneg.mpr (Nat.cast_nonneg _))
            have hdiv := mul_le_mul_of_nonneg_right hmean
              (inv_nonneg.mpr hdn)
            rw [← div_eq_mul_inv, ← div_eq_mul_inv] at hdiv
            have hminle := min_le_min hdiv (le_refl (1 : ℝ))
            nlinarith [hminle]
      have hiou_u := iou_score_bounds drawLine t
        (a.map fun p => shiftBy p u v) 128 12
      have hiou_s := iou_score_bounds drawLine t
        (a.map fun p => shiftBy p s v) 128 12
      have hdivle := mul_le_mul_of_nonneg_right hmhd (inv_nonneg.mpr hdn)
      rw [← div_eq_mul_inv, ← div_eq_mul_inv] at hdivle
      have hminle := min_le_min hdivle (le_refl (1 : ℝ))
      have hosr : ((_ordered_sampling_score haversine_distance_m sampler t
          (a.map fun p => shiftBy p u v) 50 : ℤ) : ℝ) ≤
          ((_ordered_sampling_score haversine_distance_m sampler t
          (a.map fun p => shiftBy p s v) 50 : ℤ) : ℝ) :=
        Int.cast_le.mpr hos
      have hiour : ((_raster_iou_score drawLine t
          (a.map fun p => shiftBy p u v) 128 12 : ℤ) : ℝ) ≤ 100 := by
        exact_mod_cast hiou_u.2
      have hiour' : (0 : ℝ) ≤ ((_raster_iou_score drawLine t
          (a.map fun p => shiftBy p s v) 128 12 : ℤ) : ℝ) := by
        exact_mod_cast hiou_s.1
      have hble : 55/100 * ((1 - min
            (_modified_hausdorff_distance haversine_distance_m t
              (a.map fun p => shiftBy p u v) /
             _compute_diameter haversine_distance_m sampler t) 1) * 100) +
          35/100 * ((_ordered_sampling_score haversine_distance_m sampler t
            (a.map fun p => shiftBy p u v) 50 : ℤ) : ℝ) +
          10/100 * ((_raster_iou_score drawLine t
            (a.map fun p => shiftBy p u v) 128 12 : ℤ) : ℝ) ≤
          55/100 * ((1 - min
            (_modified_hausdorff_distance haversine_distance_m t
              (a.map fun p => shiftBy p s v) /
             _compute_diameter haversine_distance_m sampler t) 1) * 100) +
          35/100 * ((_ordered_sampling_score haversine_distance_m sampler t
            (a.map fun p => shiftBy p s v) 50 : ℤ) : ℝ) +
          10/100 * ((_raster_iou_score drawLine t
            (a.map fun p => shiftBy p s v) 128 12 : ℤ) : ℝ) +
          ((10 : ℤ) : ℝ) := by
        push_cast
        push_cast at hosr hiour hiour'
        linarith [hminle, hosr, hiour, hiour']
      calc (pyRound (55/100 * ((1 - min
            (_modified_hausdorff_distance haversine_distance_m t
              (a.map fun p => shiftBy p u v) /
             _compute_diameter haversine_distance_m sampler t) 1) * 100) +
          35/100 * ((_ordered_sampling_score haversine_distance_m sampler t
            (a.map fun p => shiftBy p u v) 50 : ℤ) : ℝ) +
          10/100 * ((_raster_iou_score drawLine t
            (a.map fun p => shiftBy p u v) 128 12 : ℤ) : ℝ)))
          ≤ pyRound (55/100 * ((1 - min
            (_modified_hausdorff_distance haversine_distance_m t
              (a.map fun p => shiftBy p s v) /
             _compute_diameter haversine_distance_m sampler t) 1) * 100) +
          35/100 * ((_ordered_sampling_score haversine_distance_m sampler t
            (a.map fun p => shiftBy p s v) 50 : ℤ) : ℝ) +
          10/100 * ((_raster_iou_score drawLine t
            (a.map fun p => shiftBy p s v) 128 12 : ℤ) : ℝ) +
          ((10 : ℤ) : ℝ)) := pyRound_mono hble
        _ = _ + 10 := pyRound_add_int _ 10 ⟨5, by norm_num⟩

/-- Witness for the amended C7: a two-point equator target with a collapsed
actual pushed westward from shift 0 to shift 1/2. -/
theorem C7_score_shift_bounded_witness :
    (∀ p ∈ ([⟨0, 0⟩, ⟨0, 0⟩] : List (Coordinate ℝ)),
      setDist haversine_distance_m [⟨0, 0⟩, ⟨1, 0⟩]
        (shiftBy p 0 ((-1 : ℝ), (0 : ℝ))) ≤
      setDist haversine_distance_m [⟨0, 0⟩, ⟨1, 0⟩]
        (shiftBy p (1/2) ((-1 : ℝ), (0 : ℝ)))) ∧
    (∀ q ∈ ([⟨0, 0⟩, ⟨1, 0⟩] : List (Coordinate ℝ)),
      setDist haversine_distance_m
        (([⟨0, 0⟩, ⟨0, 0⟩] : List (Coordinate ℝ)).map
          fun p => shiftBy p 0 ((-1 : ℝ), (0 : ℝ))) q ≤
      setDist haversine_distance_m
        (([⟨0, 0⟩, ⟨0, 0⟩] : List (Coordinate ℝ)).map
          fun p => shiftBy p (1/2) ((-1 : ℝ), (0 : ℝ))) q) ∧
    List.Forall₂ (fun x y : ℝ => x ≤ y)
      (((_resample_curve haversine_distance_m
          ([⟨0, 0⟩, ⟨1, 0⟩] : List (Coordinate ℝ)) 50).zip
        (_resample_curve haversine_distance_m
          (([⟨0, 0⟩, ⟨0, 0⟩] : List (Coordinate ℝ)).map
            fun p => shiftBy p 0 ((-1 : ℝ), (0 : ℝ))) 50)).map
        (fun pr => haversine_distance_m pr.1 pr.2))
      (((_resample_curve haversine_distance_m
          ([⟨0, 0⟩, ⟨1, 0⟩] : List (Coordinate ℝ)) 50).zip
        (_resample_curve haversine_distance_m
          (([⟨0, 0⟩, ⟨0, 0⟩] : List (Coordinate ℝ)).map
            fun p => shiftBy p (1/2) ((-1 : ℝ), (0 : ℝ))) 50)).map
        (fun pr => haversine_distance_m pr.1 pr.2)) ∧
    (_resample_curve haversine_distance_m
        (([⟨0, 0⟩, ⟨0, 0⟩] : List (Coordinate ℝ)).map
          fun p => shiftBy p 0 ((-1 : ℝ), (0 : ℝ))) 50).length =
      (_resample_curve haversine_distance_m
        (([⟨0, 0⟩, ⟨0, 0⟩] : List (Coordinate ℝ)).map
          fun p => shiftBy p (1/2) ((-1 : ℝ), (0 : ℝ))) 50).length ∧
    (_validate_algorithmic haversine_distance_m (fun _ _ _ => false)
      (fun _ _ _ _ => []) ([⟨0, 0⟩, ⟨1, 0⟩] : List (Coordinate ℝ))
      (([⟨0, 0⟩, ⟨0, 0⟩] : List (Coordinate ℝ)).map
        fun p => shiftBy p (1/2) ((-1 : ℝ), (0 : ℝ))) 45).score ≤
    (_validate_algorithmic haversine_distance_m (fun _ _ _ => false)
      (fun _ _ _ _ => []) ([⟨0, 0⟩, ⟨1, 0⟩] : List (Coordinate ℝ))
      (([⟨0, 0⟩, ⟨0, 0⟩] : List (Coordinate ℝ)).map
        fun p => shiftBy p 0 ((-1 : ℝ), (0 : ℝ))) 45).score + 10 := by
  have hK : (0 : ℝ) < 6371000 * (Real.pi / 180) := by
    have hp := Real.pi_pos
    positivity
  have hsh0 : shiftBy (⟨0, 0⟩ : Coordinate ℝ) 0 ((-1 : ℝ), (0 : ℝ)) =
      ⟨0, 0⟩ := by
    simp [shiftBy]
  have hshh : shiftBy (⟨0, 0⟩ : Coordinate ℝ) (1/2) ((-1 : ℝ), (0 : ℝ)) =
      ⟨-(1/2), 0⟩ := by
    simp [shiftBy]
  have hm0 : ([⟨0, 0⟩, ⟨0, 0⟩] : List (Coordinate ℝ)).map
      (fun p => shiftBy p 0 ((-1 : ℝ), (0 : ℝ))) = [⟨0, 0⟩, ⟨0, 0⟩] := by
    simp only [List.map_cons, List.map_nil, hsh0]
  have hmh : ([⟨0, 0⟩, ⟨0, 0⟩] : List (Coordinate ℝ)).map
      (fun p => shiftBy p (1/2) ((-1 : ℝ), (0 : ℝ))) =
      [⟨-(1/2), 0⟩, ⟨-(1/2), 0⟩] := by
    simp only [List.map_cons, List.map_nil, hshh]
  have hmemEq : ∀ p ∈ ([⟨0, 0⟩, ⟨0, 0⟩] : List (Coordinate ℝ)),
      p = (⟨0, 0⟩ : Coordinate ℝ) := by
    intro p hp
    rcases List.mem_cons.mp hp with h | h
    · exact h
    · rcases List.mem_cons.mp h with h | h
      · exact h
      · exact absurd h (List.not_mem_nil p)
  have hA : ∀ p ∈ ([⟨0, 0⟩, ⟨0, 0⟩] : List (Coordinate ℝ)),
      setDist haversine_distance_m [⟨0, 0⟩, ⟨1, 0⟩]
        (shiftBy p 0 ((-1 : ℝ), (0 : ℝ))) ≤
      setDist haversine_distance_m [⟨0, 0⟩, ⟨1, 0⟩]
        (shiftBy p (1/2) ((-1 : ℝ), (0 : ℝ))) := by
    intro p hp
    rw [hmemEq p hp, hsh0, hshh]
    unfold setDist
    simp only [List.map_cons, List.map_nil]
    simp only [show ∀ x y : ℝ, listMin [x, y] = min x y from fun x y => rfl]
    rw [haversine_self, min_eq_left (haversine_nonneg _ _)]
    exact le_min (haversine_nonneg _ _) (haversine_nonneg _ _)
  have hT : ∀ q ∈ ([⟨0, 0⟩, ⟨1, 0⟩] : List (Coordinate ℝ)),
      setDist haversine_distance_m
        (([⟨0, 0⟩, ⟨0, 0⟩] : List (Coordinate ℝ)).map
          fun p => shiftBy p 0 ((-1 : ℝ), (0 : ℝ))) q ≤
      setDist haversine_distance_m
        (([⟨0, 0⟩, ⟨0, 0⟩] : List (Coordinate ℝ)).map
          fun p => shiftBy p (1/2) ((-1 : ℝ), (0 : ℝ))) q := by
    intro q hq
    rw [hm0, hmh]
    unfold setDist
    simp only [List.map_cons, List.map_nil]
    simp only [show ∀ x y : ℝ, listMin [x, y] = min x y from fun x y => rfl]
    rw [min_self, min_self]
    rcases List.mem_cons.mp hq with h | h
    · rw [h, haversine_self]
      exact haversine_nonneg _ _
    · rcases List.mem_cons.mp h with h | h
      · rw [h]
        have h1 : haversine_distance_m (⟨1, 0⟩ : Coordinate ℝ) ⟨0, 0⟩ =
            6371000 * (Real.pi / 180) := by
          rw [haversine_equator 1 0 (by norm_num)]
          norm_num
        have h2 : haversine_distance_m (⟨1, 0⟩ : Coordinate ℝ) ⟨-(1/2), 0⟩ =
            6371000 * (Real.pi / 180) * (3/2) := by
          have habs2 : |(-(1/2) : ℝ) - 1| = 3/2 := by
            rw [abs_of_nonpos (by norm_num)]
            norm_num
          rw [haversine_equator 1 (-(1/2)) (by rw [habs2]; norm_num), habs2]
        rw [h1, h2]
        linarith
      · exact absurd h (List.not_mem_nil q)
  have hR : List.Forall₂ (fun x y : ℝ => x ≤ y)
      (((_resample_curve haversine_distance_m
          ([⟨0, 0⟩, ⟨1, 0⟩] : List (Coordinate ℝ)) 50).zip
        (_resample_curve haversine_distance_m
          (([⟨0, 0⟩, ⟨0, 0⟩] : List (Coordinate ℝ)).map
            fun p => shiftBy p 0 ((-1 : ℝ), (0 : ℝ))) 50)).map
        (fun pr => haversine_distance_m pr.1 pr.2))
      (((_resample_curve haversine_distance_m
          ([⟨0, 0⟩, ⟨1, 0⟩] : List (Coordinate ℝ)) 50).zip
        (_resample_curve haversine_distance_m
          (([⟨0, 0⟩, ⟨0, 0⟩] : List (Coordinate ℝ)).map
            fun p => shiftBy p (1/2) ((-1 : ℝ), (0 : ℝ))) 50)).map
        (fun pr => haversine_distance_m pr.1 pr.2)) := by
    rw [hm0, hmh]
    rw [dists_ex 0 (by norm_num) (by norm_num) (haversine_self _),
      dists_ex (-(1/2)) (by norm_num) (by norm_num) (haversine_self _)]
    apply forall₂_le_of_mem_imp
    intro k _
    apply mul_le_mul_of_nonneg_left _ hK.le
    have h0k : (0 : ℝ) ≤ (k : ℝ)/49 := by positivity
    rw [zero_sub, abs_neg, abs_of_nonneg h0k,
      abs_of_nonpos (by linarith : (-(1/2) : ℝ) - (k : ℝ)/49 ≤ 0)]
    linarith
  have hL : (_resample_curve haversine_distance_m
      (([⟨0, 0⟩, ⟨0, 0⟩] : List (Coordinate ℝ)).map
        fun p => shiftBy p 0 ((-1 : ℝ), (0 : ℝ))) 50).length =
      (_resample_curve haversine_distance_m
      (([⟨0, 0⟩, ⟨0, 0⟩] : List (Coordinate ℝ)).map
        fun p => shiftBy p (1/2) ((-1 : ℝ), (0 : ℝ))) 50).length := by
    rw [hm0, hmh,
      resample_const_pair haversine_distance_m _ 50 (by norm_num)
        (haversine_self _),
      resample_const_pair haversine_distance_m _ 50 (by norm_num)
        (haversine_self _)]
    rw [List.length_replicate, List.length_replicate]
  exact ⟨hA, hT, hR, hL,
    C7_score_shift_bounded (fun _ _ _ => false) (fun _ _ _ _ => []) 45
      [⟨0, 0⟩, ⟨1, 0⟩] [⟨0, 0⟩, ⟨0, 0⟩] ((-1 : ℝ), (0 : ℝ)) 0 (1/2)
      hA hT hR hL⟩

/-- Counterexample to C7 as stated: pushing a collapsed actual from the
left endpoint of the target to its middle moves every actual point farther
from the target set, yet raises the blended score from 34 to 53, because
centering improves the percentile and the ordered-sampling components. -/
theorem C7_counterexample : ¬ C7_claim := by
  intro h
  have hmap0 : ([⟨0, 0⟩, ⟨0, 0⟩] : List (Coordinate ℝ)).map
      (fun p => shiftBy p 0 ((1 : ℝ), (0 : ℝ))) = [⟨0, 0⟩, ⟨0, 0⟩] := by
    simp [shiftBy]
  have hmaph : ([⟨0, 0⟩, ⟨0, 0⟩] : List (Coordinate ℝ)).map
      (fun p => shiftBy p (1/2) ((1 : ℝ), (0 : ℝ))) =
      [⟨1/2, 0⟩, ⟨1/2, 0⟩] := by
    simp [shiftBy]
  have hmove : ∀ p ∈ ([⟨0, 0⟩, ⟨0, 0⟩] : List (Coordinate ℝ)),
      setDist haversine_distance_m [⟨0, 0⟩, ⟨1, 0⟩]
        (shiftBy p 0 ((1 : ℝ), (0 : ℝ))) ≤
      setDist haversine_distance_m [⟨0, 0⟩, ⟨1, 0⟩]
        (shiftBy p (1/2) ((1 : ℝ), (0 : ℝ))) := by
    intro p hp
    have hp0 : p = (⟨0, 0⟩ : Coordinate ℝ) := by
      rcases List.mem_cons.mp hp with h' | h'
      · exact h'
      · rcases List.mem_cons.mp h' with h' | h'
        · exact h'
        · exact absurd h' (List.not_mem_nil p)
    rw [hp0, show shiftBy (⟨0, 0⟩ : Coordinate ℝ) 0 ((1 : ℝ), (0 : ℝ)) =
      ⟨0, 0⟩ by simp [shiftBy],
      show shiftBy (⟨0, 0⟩ : Coordinate ℝ) (1/2) ((1 : ℝ), (0 : ℝ)) =
      ⟨1/2, 0⟩ by simp [shiftBy]]
    unfold setDist
    simp only [List.map_cons, List.map_nil]
    simp only [show ∀ x y : ℝ, listMin [x, y] = min x y from fun x y => rfl]
    rw [haversine_self, min_eq_left (haversine_nonneg _ _)]
    exact le_min (haversine_nonneg _ _) (haversine_nonneg _ _)
  have hcl := h (fun _ _ _ => false) (fun _ _ _ _ => []) 45
    [⟨0, 0⟩, ⟨1, 0⟩] [⟨0, 0⟩, ⟨0, 0⟩] ((1 : ℝ), (0 : ℝ)) 0 (1/2)
    le_rfl (by norm_num) hmove
  rw [hmap0, hmaph, score_ex_zero, score_ex_half] at hcl
  omega

end GhostTracks
